import Mathlib

/-!
NEST `iaf_wang_2002`: a shallow embedding of `models/iaf_wang_2002.cpp`.

The C++ `double` is modelled by an arbitrary linearly ordered field `α`
(exact arithmetic, total order: no rounding, no NaN); C++ `long`/`int` by `Int`.
Functions that mutate `*this` and may throw return an `Outcome` that carries the
object as it stands when the function returns or throws.
Library code that the translation unit only calls (the GSL evolve primitive,
`std::exp`, the `Time` conversions) is taken as a parameter, bundled in `Kernel`.
-/

namespace nest

/-! ## Exceptions and outcomes -/

/-- The two kernel exceptions thrown by this translation unit. -/
inductive KernelException where
  | BadProperty (msg : String)
  | GSLSolverFailure (model : String) (status : Int)
  deriving DecidableEq, Repr

/-- Result of running a member function on an object of type `ν`: normal return,
an exception (with the object as the throw leaves it), or a loop that is still
running when the fuel of the model is used up. -/
inductive Outcome (ν : Type) where
  | ok (n : ν)
  | throw (e : KernelException) (n : ν)
  | diverge (n : ν)

/-- The object carried by an outcome. -/
def Outcome.state {ν : Type} : Outcome ν → ν
  | .ok n => n
  | .throw _ n => n
  | .diverge n => n

/-- Whether the outcome is an exception. -/
def Outcome.throws {ν : Type} : Outcome ν → Bool
  | .throw _ _ => true
  | _ => false

/-- Sequencing: run `f` on the object of a normal return; an exception or a loop out of
fuel ends the run. -/
def Outcome.andThen {ν : Type} (o : Outcome ν) (f : ν → Outcome ν) : Outcome ν :=
  match o with
  | .ok n => f n
  | .throw e n => .throw e n
  | .diverge n => .diverge n

/-- Apply `f` to the object carried by an outcome. -/
def Outcome.map {ν : Type} (f : ν → ν) : Outcome ν → Outcome ν
  | .ok n => .ok (f n)
  | .throw e n => .throw e (f n)
  | .diverge n => .diverge (f n)

/-! ## Dictionaries -/

/-- Names are the keys of a status dictionary. -/
abbrev Name := String

/-- Modelled from the spec: `DictionaryDatum` (sli/dictdatum.h) restricted to entries
holding a `double`: a partial map from names to values. -/
abbrev DictionaryDatum (α : Type) := Name → Option α

/-- Modelled from the spec: `def< double >( d, n, v )` (sli/dictutils.h) stores `v`
under `n`, replacing an existing entry. -/
def def_ {α : Type} (d : DictionaryDatum α) (n : Name) (v : α) : DictionaryDatum α :=
  fun k => if k = n then some v else d k

/-- Modelled from the spec: `updateValueParam< double >( d, n, value, node )`
(libnestutil/dict_util.h) overwrites `value` with the entry of `d` under `n` when
there is one and leaves it alone otherwise ("merging the dictionary"). -/
def updateValueParam {α : Type} (d : DictionaryDatum α) (n : Name) (value : α) : α :=
  match d n with
  | some v => v
  | none => value

namespace names

def E_L : Name := "E_L"
def E_ex : Name := "E_ex"
def E_in : Name := "E_in"
def V_th : Name := "V_th"
def V_reset : Name := "V_reset"
def C_m : Name := "C_m"
def g_L : Name := "g_L"
def t_ref : Name := "t_ref"
def tau_AMPA : Name := "tau_AMPA"
def tau_GABA : Name := "tau_GABA"
def tau_rise_NMDA : Name := "tau_rise_NMDA"
def tau_decay_NMDA : Name := "tau_decay_NMDA"
def alpha : Name := "alpha"
def conc_Mg2 : Name := "conc_Mg2"
def gsl_error_tol : Name := "gsl_error_tol"

end names

/-! ## Parameters -/

/-- Model parameters: `iaf_wang_2002::Parameters_`. -/
structure Parameters_ (α : Type) where
  E_L : α
  E_ex : α
  E_in : α
  V_th : α
  V_reset : α
  C_m : α
  g_L : α
  t_ref : α
  tau_AMPA : α
  tau_GABA : α
  tau_rise_NMDA : α
  tau_decay_NMDA : α
  alpha : α
  conc_Mg2 : α
  gsl_error_tol : α

/-- Source lines 104-120: the default constructor `Parameters_::Parameters_()`. The
initialiser list has no entry for `tau_rise_NMDA`: the member keeps the indeterminate
value `tau_rise_NMDA₀` of the storage. -/
def Parameters_.ctor {α : Type} [LinearOrderedField α] (tau_rise_NMDA₀ : α) :
    Parameters_ α where
  E_L := -70.0
  E_ex := 0.0
  E_in := -70.0
  V_th := -55.0
  V_reset := -60.0
  C_m := 500.0
  g_L := 25.0
  t_ref := 2.0
  tau_AMPA := 2.0
  tau_GABA := 5.0
  tau_rise_NMDA := tau_rise_NMDA₀
  tau_decay_NMDA := 100
  alpha := 0.5
  conc_Mg2 := 1
  gsl_error_tol := 1e-3

/-- Source lines 167-185: `Parameters_::get` writes the fifteen fields into `d`. -/
def Parameters_.get {α : Type} (p : Parameters_ α) (d : DictionaryDatum α) : DictionaryDatum α :=
  let d := def_ d names.E_L p.E_L
  let d := def_ d names.E_ex p.E_ex
  let d := def_ d names.E_in p.E_in
  let d := def_ d names.V_th p.V_th
  let d := def_ d names.V_reset p.V_reset
  let d := def_ d names.C_m p.C_m
  let d := def_ d names.g_L p.g_L
  let d := def_ d names.t_ref p.t_ref
  let d := def_ d names.tau_AMPA p.tau_AMPA
  let d := def_ d names.tau_GABA p.tau_GABA
  let d := def_ d names.tau_rise_NMDA p.tau_rise_NMDA
  let d := def_ d names.tau_decay_NMDA p.tau_decay_NMDA
  let d := def_ d names.alpha p.alpha
  let d := def_ d names.conc_Mg2 p.conc_Mg2
  def_ d names.gsl_error_tol p.gsl_error_tol

/-- Source lines 191-210: the fifteen `updateValueParam` assignments of
`Parameters_::set`, in source order, on the object itself. -/
def Parameters_.assign {α : Type} (d : DictionaryDatum α) (p : Parameters_ α) : Parameters_ α :=
  let p := { p with V_th := updateValueParam d names.V_th p.V_th }
  let p := { p with V_reset := updateValueParam d names.V_reset p.V_reset }
  let p := { p with t_ref := updateValueParam d names.t_ref p.t_ref }
  let p := { p with E_L := updateValueParam d names.E_L p.E_L }
  let p := { p with E_ex := updateValueParam d names.E_ex p.E_ex }
  let p := { p with E_in := updateValueParam d names.E_in p.E_in }
  let p := { p with C_m := updateValueParam d names.C_m p.C_m }
  let p := { p with g_L := updateValueParam d names.g_L p.g_L }
  let p := { p with tau_AMPA := updateValueParam d names.tau_AMPA p.tau_AMPA }
  let p := { p with tau_GABA := updateValueParam d names.tau_GABA p.tau_GABA }
  let p := { p with tau_rise_NMDA := updateValueParam d names.tau_rise_NMDA p.tau_rise_NMDA }
  let p := { p with tau_decay_NMDA := updateValueParam d names.tau_decay_NMDA p.tau_decay_NMDA }
  let p := { p with alpha := updateValueParam d names.alpha p.alpha }
  let p := { p with conc_Mg2 := updateValueParam d names.conc_Mg2 p.conc_Mg2 }
  { p with gsl_error_tol := updateValueParam d names.gsl_error_tol p.gsl_error_tol }

/-- Source lines 187-240: `Parameters_::set`. The fields are assigned first, then the
checks run in source order; the first check that fires throws `BadProperty`, and the
object keeps the assigned fields. -/
def Parameters_.set {α : Type} [LinearOrderedField α] (d : DictionaryDatum α)
    (p : Parameters_ α) : Outcome (Parameters_ α) :=
  let p := Parameters_.assign d p
  if p.V_reset ≥ p.V_th then
    .throw (.BadProperty "Reset potential must be smaller than threshold.") p
  else if p.C_m ≤ 0 then
    .throw (.BadProperty "Capacitance must be strictly positive.") p
  else if p.t_ref < 0 then
    .throw (.BadProperty "Refractory time cannot be negative.") p
  else if p.tau_AMPA ≤ 0 ∨ p.tau_GABA ≤ 0 ∨ p.tau_rise_NMDA ≤ 0 ∨ p.tau_decay_NMDA ≤ 0 then
    .throw (.BadProperty "All time constants must be strictly positive.") p
  else if p.alpha ≤ 0 then
    .throw (.BadProperty "alpha > 0 required.") p
  else if p.conc_Mg2 ≤ 0 then
    .throw (.BadProperty "Mg2 concentration must be strictly positive.") p
  else if p.gsl_error_tol ≤ 0 then
    .throw (.BadProperty "The gsl_error_tol must be strictly positive.") p
  else
    .ok p

/-- The invariants of the parameter set (spec, section 3). -/
def Parameters_.valid {α : Type} [LinearOrderedField α] (p : Parameters_ α) : Prop :=
  p.V_reset < p.V_th ∧ 0 < p.C_m ∧ 0 ≤ p.t_ref ∧ 0 < p.tau_AMPA ∧ 0 < p.tau_GABA ∧
    0 < p.tau_rise_NMDA ∧ 0 < p.tau_decay_NMDA ∧ 0 < p.alpha ∧ 0 < p.conc_Mg2 ∧
    0 < p.gsl_error_tol

/-- The values after merging the dictionary into the prior parameters, field by field. -/
def merged {α : Type} (d : DictionaryDatum α) (p : Parameters_ α) : Parameters_ α where
  E_L := (d names.E_L).getD p.E_L
  E_ex := (d names.E_ex).getD p.E_ex
  E_in := (d names.E_in).getD p.E_in
  V_th := (d names.V_th).getD p.V_th
  V_reset := (d names.V_reset).getD p.V_reset
  C_m := (d names.C_m).getD p.C_m
  g_L := (d names.g_L).getD p.g_L
  t_ref := (d names.t_ref).getD p.t_ref
  tau_AMPA := (d names.tau_AMPA).getD p.tau_AMPA
  tau_GABA := (d names.tau_GABA).getD p.tau_GABA
  tau_rise_NMDA := (d names.tau_rise_NMDA).getD p.tau_rise_NMDA
  tau_decay_NMDA := (d names.tau_decay_NMDA).getD p.tau_decay_NMDA
  alpha := (d names.alpha).getD p.alpha
  conc_Mg2 := (d names.conc_Mg2).getD p.conc_Mg2
  gsl_error_tol := (d names.gsl_error_tol).getD p.gsl_error_tol

/-! ## State, buffers, events -/

/-- Indices of the state vector, `State_::StateVecElems`. -/
inductive StateVecElems where
  | V_m
  | s_AMPA
  | s_GABA
  | s_NMDA
  deriving DecidableEq, Repr

/-- The array `double y_[ STATE_VEC_SIZE ]`, indexed by `StateVecElems`. -/
abbrev StateVec (α : Type) := StateVecElems → α

/-- Dynamic state: `iaf_wang_2002::State_`. -/
structure State_ (α : Type) where
  y_ : StateVec α
  s_NMDA_pre : α
  r_ : Int

/-- Modelled from the spec: `RingBuffer` (nestkernel/ring_buffer.h), one slot per lag,
"total weighted contribution scheduled to land at this lag". -/
abbrev RingBuffer (α : Type) := Int → α

/-- Modelled from the spec: `RingBuffer::add_value( offs, v )` adds `v` to the slot of `offs`. -/
def RingBuffer.add_value {α : Type} [Add α] (b : RingBuffer α) (offs : Int) (v : α) :
    RingBuffer α :=
  fun k => if k = offs then b k + v else b k

/-- Modelled from the spec: `RingBuffer::get_value( offs )` returns the slot of `offs` and
zeroes it ("drained to zero on read"). -/
def RingBuffer.get_value {α : Type} [Zero α] (b : RingBuffer α) (offs : Int) :
    α × RingBuffer α :=
  (b offs, fun k => if k = offs then 0 else b k)

/-- Internal variables: `iaf_wang_2002::Variables_`. -/
structure Variables_ where
  RefractoryCounts_ : Int

/-- Buffers: `iaf_wang_2002::Buffers_`. The GSL stepper, controller and evolve structs
`s_`, `c_`, `e_` are one value of an arbitrary type `σ`; the data logger is seen through
its `record_data` calls (see `Effect`). -/
structure Buffers_ (α σ : Type) where
  spike_AMPA : RingBuffer α
  spike_GABA : RingBuffer α
  spike_NMDA : RingBuffer α
  currents_ : RingBuffer α
  e_ : σ
  step_ : α
  integration_step_ : α
  I_stim_ : α

/-- What `handle` reads of an incoming `SpikeEvent`; `rel_delivery_steps` is the value of
`e.get_rel_delivery_steps( kernel().simulation_manager.get_slice_origin() )`. -/
structure SpikeEvent (α : Type) where
  weight : α
  multiplicity : Int
  rport : Int
  offset : α
  delay_steps : Int
  rel_delivery_steps : Int

/-- What `handle` reads of an incoming `CurrentEvent`. -/
structure CurrentEvent (α : Type) where
  weight : α
  current : α
  delay_steps : Int
  rel_delivery_steps : Int

/-- Calls that `update` makes out of the node, in the order they happen. -/
inductive Effect (α : Type) where
  | evolve_apply (status : Int)
  | send (offset : α) (stamp : Int) (lag : Int)
  | record_data (step : Int)

/-- Whether the effect is a call of the evolve primitive. -/
def Effect.isEvolve {α : Type} : Effect α → Bool
  | .evolve_apply _ => true
  | _ => false

/-- The neuron: `iaf_wang_2002`. `last_spike_` and `name` stand for the `ArchivingNode`
base (`get_spiketime_ms`, `get_name`); `effects` logs the calls made so far. -/
structure iaf_wang_2002 (α σ : Type) where
  P_ : Parameters_ α
  S_ : State_ α
  V_ : Variables_
  B_ : Buffers_ α σ
  last_spike_ : α
  name : String
  effects : List (Effect α)

/-- The status `GSL_SUCCESS` of gsl_errno.h. -/
def GSL_SUCCESS : Int := 0

/-- What one call of `gsl_odeiv_evolve_apply` leaves behind: the returned status, the
scratch structs, the time `t`, the trial step size and the state vector. -/
structure EvolveResult (α σ : Type) where
  status : Int
  e : σ
  t : α
  h : α
  y : StateVec α

/-- Library code the translation unit calls: `std::exp`, the evolve primitive
`gsl_odeiv_evolve_apply( e, c, s, sys, &t, t1, &h, y )` as an arbitrary step function of
the scratch structs, the system function, `t`, `t1`, `h` and `y`, and the `Time`
conversions `Time::step( n ).get_ms()`, `Time( Time::ms( x ) ).get_steps()` and
`Time::get_resolution().get_ms()`. -/
structure Kernel (α σ : Type) where
  exp : α → α
  gsl_odeiv_evolve_apply :
    σ → (α → StateVec α → StateVec α → Int × StateVec α) → α → α → α → StateVec α →
      EvolveResult α σ
  get_ms : Int → α
  get_steps : α → Int
  resolution_ms : α

/-! ## Dynamics -/

/-- Source lines 67-96: `iaf_wang_2002_dynamics( t, y, f, pnode )`; returns the status and
the array `f` after the four stores. -/
def iaf_wang_2002_dynamics {α σ : Type} [LinearOrderedField α] (K : Kernel α σ)
    (node : iaf_wang_2002 α σ) (_t : α) (y : StateVec α) (f : StateVec α) :
    Int × StateVec α :=
  let I_AMPA := (y .V_m - node.P_.E_ex) * y .s_AMPA
  let I_rec_GABA := (y .V_m - node.P_.E_in) * y .s_GABA
  let I_rec_NMDA := (y .V_m - node.P_.E_ex)
    / (1 + node.P_.conc_Mg2 * K.exp (-0.062 * y .V_m) / 3.57) * y .s_NMDA
  let I_syn := I_AMPA + I_rec_GABA + I_rec_NMDA - node.B_.I_stim_
  let f := Function.update f .V_m ((-node.P_.g_L * (y .V_m - node.P_.E_L) - I_syn) / node.P_.C_m)
  let f := Function.update f .s_AMPA (-y .s_AMPA / node.P_.tau_AMPA)
  let f := Function.update f .s_NMDA (-y .s_NMDA / node.P_.tau_decay_NMDA)
  let f := Function.update f .s_GABA (-y .s_GABA / node.P_.tau_GABA)
  (GSL_SUCCESS, f)

/-! ## Initialisation -/

/-- Source lines 383-390: `calibrate` derives the refractory step count from `t_ref`. -/
def calibrate {α σ : Type} (K : Kernel α σ) (n : iaf_wang_2002 α σ) : iaf_wang_2002 α σ :=
  { n with V_ := { RefractoryCounts_ := K.get_steps n.P_.t_ref } }

/-- Source lines 372-381: `pre_run_hook`; `none` when the assertion fails. -/
def pre_run_hook {α σ : Type} (K : Kernel α σ) (n : iaf_wang_2002 α σ) :
    Option (iaf_wang_2002 α σ) :=
  let n := { n with V_ := { RefractoryCounts_ := K.get_steps n.P_.t_ref } }
  if n.V_.RefractoryCounts_ ≥ 0 then some n else none

/-! ## Update -/

/-- Modelled from the spec: `ArchivingNode::get_spiketime_ms()`, the time in ms of the
last spike recorded with `set_spiketime`. -/
def get_spiketime_ms {α σ : Type} (n : iaf_wang_2002 α σ) : α :=
  n.last_spike_

/-- Modelled from the spec: `ArchivingNode::set_spiketime( Time::step( s ) )` records
the time of step `s` as the time of the last spike. -/
def set_spiketime {α σ : Type} (K : Kernel α σ) (s : Int) (n : iaf_wang_2002 α σ) :
    iaf_wang_2002 α σ :=
  { n with last_spike_ := K.get_ms s }

/-- Modelled from the spec: `kernel().event_delivery_manager.send( *this, se, lag )` stamps
the event with the step that follows `lag` in the slice and passes it on. -/
def send {α σ : Type} (origin : Int) (offset : α) (lag : Int) (n : iaf_wang_2002 α σ) :
    iaf_wang_2002 α σ :=
  { n with effects := n.effects ++ [.send offset (origin + lag + 1) lag] }

/-- Source lines 420-427: one call `gsl_odeiv_evolve_apply( B_.e_, B_.c_, B_.s_, &B_.sys_,
&t, B_.step_, &B_.integration_step_, S_.y_ )` from local time `t`; the system function
is `iaf_wang_2002_dynamics` with the node as its parameter (source lines 362-365). -/
def evolve_call {α σ : Type} [LinearOrderedField α] (K : Kernel α σ) (t : α)
    (n : iaf_wang_2002 α σ) : EvolveResult α σ :=
  K.gsl_odeiv_evolve_apply n.B_.e_ (iaf_wang_2002_dynamics K n) t n.B_.step_
    n.B_.integration_step_ n.S_.y_

/-- The node after the evolve call returned `r`: the call wrote the scratch structs, the
trial step size `B_.integration_step_` and the state vector `S_.y_`. -/
def evolve_store {α σ : Type} (n : iaf_wang_2002 α σ) (r : EvolveResult α σ) :
    iaf_wang_2002 α σ :=
  { n with
    B_ := { n.B_ with e_ := r.e, integration_step_ := r.h }
    S_ := { n.S_ with y_ := r.y }
    effects := n.effects ++ [.evolve_apply r.status] }

/-- Source lines 418-433: the loop `while ( t < B_.step_ )` around the evolve primitive.
`fuel` bounds the number of evolve calls; `diverge` when the loop would go on. -/
def integrate {α σ : Type} [LinearOrderedField α] (K : Kernel α σ) :
    Nat → α → iaf_wang_2002 α σ → Outcome (iaf_wang_2002 α σ)
  | 0, t, n => if t < n.B_.step_ then .diverge n else .ok n
  | fuel + 1, t, n =>
    if t < n.B_.step_ then
      if (evolve_call K t n).status ≠ GSL_SUCCESS then
        .throw (.GSLSolverFailure n.name (evolve_call K t n).status)
          (evolve_store n (evolve_call K t n))
      else
        integrate K fuel (evolve_call K t n).t (evolve_store n (evolve_call K t n))
    else .ok n

/-- Source lines 436-443: add the incoming spikes of `lag` to the gating variables,
draining the three slots, and clamp `s_NMDA` at 1. -/
def add_incoming_spikes {α σ : Type} [LinearOrderedField α] (lag : Int)
    (n : iaf_wang_2002 α σ) : iaf_wang_2002 α σ :=
  let a := RingBuffer.get_value n.B_.spike_AMPA lag
  let y := Function.update n.S_.y_ .s_AMPA (n.S_.y_ .s_AMPA + a.1)
  let g := RingBuffer.get_value n.B_.spike_GABA lag
  let y := Function.update y .s_GABA (y .s_GABA + g.1)
  let m := RingBuffer.get_value n.B_.spike_NMDA lag
  let y := Function.update y .s_NMDA (y .s_NMDA + m.1)
  let y := if y .s_NMDA > 1 then Function.update y .s_NMDA 1 else y
  { n with
    S_ := { n.S_ with y_ := y }
    B_ := { n.B_ with spike_AMPA := a.2, spike_GABA := g.2, spike_NMDA := m.2 } }

/-- Source lines 444-472: the refractory / threshold / spike transition of one lag. -/
def threshold_step {α σ : Type} [LinearOrderedField α] (K : Kernel α σ) (origin lag : Int)
    (n : iaf_wang_2002 α σ) : iaf_wang_2002 α σ :=
  if n.S_.r_ ≠ 0 then
    { n with S_ := { n.S_ with r_ := n.S_.r_ - 1, y_ := Function.update n.S_.y_ .V_m n.P_.V_reset } }
  else if n.S_.y_ .V_m ≥ n.P_.V_th then
    let n := { n with
      S_ := { n.S_ with r_ := n.V_.RefractoryCounts_, y_ := Function.update n.S_.y_ .V_m n.P_.V_reset } }
    let t_lastspike := get_spiketime_ms n
    let n := set_spiketime K (origin + lag + 1) n
    let t_spike := get_spiketime_ms n
    let n := { n with S_ := { n.S_ with
      s_NMDA_pre := n.S_.s_NMDA_pre * K.exp (-(t_spike - t_lastspike) / n.P_.tau_decay_NMDA) } }
    let s_NMDA_delta := n.P_.alpha * (1 - n.S_.s_NMDA_pre)
    let n := { n with S_ := { n.S_ with s_NMDA_pre := n.S_.s_NMDA_pre + s_NMDA_delta } }
    send origin s_NMDA_delta lag n
  else n

/-- Source lines 474-478: take the injected current of `lag` from its slot (drained)
and call the data logger. -/
def set_current_and_record {α σ : Type} [LinearOrderedField α] (origin lag : Int)
    (n : iaf_wang_2002 α σ) : iaf_wang_2002 α σ :=
  let c := RingBuffer.get_value n.B_.currents_ lag
  { n with
    B_ := { n.B_ with I_stim_ := c.1, currents_ := c.2 }
    effects := n.effects ++ [.record_data (origin + lag)] }

/-- Source lines 401-479: the body of the loop over lags. -/
def update_lag {α σ : Type} [LinearOrderedField α] (K : Kernel α σ) (fuel : Nat)
    (origin lag : Int) (n : iaf_wang_2002 α σ) : Outcome (iaf_wang_2002 α σ) :=
  match integrate K fuel 0 n with
  | .ok n =>
    .ok (set_current_and_record origin lag (threshold_step K origin lag (add_incoming_spikes lag n)))
  | .throw e n => .throw e n
  | .diverge n => .diverge n

/-- The loop `for ( long lag = from; lag < to; ++lag )` with `count` iterations left. -/
def update_loop {α σ : Type} [LinearOrderedField α] (K : Kernel α σ) (fuel : Nat)
    (origin : Int) : Nat → Int → iaf_wang_2002 α σ → Outcome (iaf_wang_2002 α σ)
  | 0, _, n => .ok n
  | count + 1, lag, n =>
    match update_lag K fuel origin lag n with
    | .ok n => update_loop K fuel origin count (lag + 1) n
    | .throw e n => .throw e n
    | .diverge n => .diverge n

/-- Source lines 396-480: `update( origin, from, to )`; `origin` is `origin.get_steps()`,
`from_` and `to_` are the slice bounds.
The local vector `s_vals` is never read and is left out. -/
def update {α σ : Type} [LinearOrderedField α] (K : Kernel α σ) (fuel : Nat)
    (origin from_ to_ : Int) (n : iaf_wang_2002 α σ) : Outcome (iaf_wang_2002 α σ) :=
  update_loop K fuel origin (to_ - from_).toNat from_ n

/-! ## Event handling -/

/-- Source lines 490-510: `handle( SpikeEvent& )`; `none` when the assertion fails. -/
def handle_SpikeEvent {α σ : Type} [LinearOrderedField α] (e : SpikeEvent α)
    (n : iaf_wang_2002 α σ) : Option (iaf_wang_2002 α σ) :=
  if e.delay_steps > 0 then
    if e.weight > 0 then
      let n := { n with B_ := { n.B_ with
        spike_AMPA := RingBuffer.add_value n.B_.spike_AMPA e.rel_delivery_steps
          (e.weight * e.multiplicity) } }
      if e.rport = 0 then
        some { n with B_ := { n.B_ with
          spike_NMDA := RingBuffer.add_value n.B_.spike_NMDA e.rel_delivery_steps
            (e.weight * e.multiplicity * e.offset) } }
      else some n
    else
      some { n with B_ := { n.B_ with
        spike_GABA := RingBuffer.add_value n.B_.spike_GABA e.rel_delivery_steps
          (-e.weight * e.multiplicity) } }
  else none

/-- Source lines 512-519: `handle( CurrentEvent& )`; `none` when the assertion fails. -/
def handle_CurrentEvent {α σ : Type} [LinearOrderedField α] (e : CurrentEvent α)
    (n : iaf_wang_2002 α σ) : Option (iaf_wang_2002 α σ) :=
  if e.delay_steps > 0 then
    some { n with B_ := { n.B_ with
      currents_ := RingBuffer.add_value n.B_.currents_ e.rel_delivery_steps
        (e.weight * e.current) } }
  else none

/-- A dictionary `d` holds the fields of `q`: each of the fifteen names maps to the
value of the field of that name. -/
def holds {α : Type} (d : DictionaryDatum α) (q : Parameters_ α) : Prop :=
  d names.E_L = some q.E_L ∧ d names.E_ex = some q.E_ex ∧ d names.E_in = some q.E_in ∧
  d names.V_th = some q.V_th ∧ d names.V_reset = some q.V_reset ∧
  d names.C_m = some q.C_m ∧ d names.g_L = some q.g_L ∧ d names.t_ref = some q.t_ref ∧
  d names.tau_AMPA = some q.tau_AMPA ∧ d names.tau_GABA = some q.tau_GABA ∧
  d names.tau_rise_NMDA = some q.tau_rise_NMDA ∧
  d names.tau_decay_NMDA = some q.tau_decay_NMDA ∧ d names.alpha = some q.alpha ∧
  d names.conc_Mg2 = some q.conc_Mg2 ∧ d names.gsl_error_tol = some q.gsl_error_tol

/-- The empty dictionary. -/
def emptyDict {α : Type} : DictionaryDatum α :=
  fun _ => none

/-- What the integration loop leaves alone: everything but the state vector, the GSL
scratch structs, the trial step size and the log of calls. -/
def integrate_frame {α σ : Type} (n n₁ : iaf_wang_2002 α σ) : Prop :=
  n₁.P_ = n.P_ ∧ n₁.V_ = n.V_ ∧ n₁.S_.r_ = n.S_.r_ ∧ n₁.S_.s_NMDA_pre = n.S_.s_NMDA_pre ∧
  n₁.B_.spike_AMPA = n.B_.spike_AMPA ∧ n₁.B_.spike_GABA = n.B_.spike_GABA ∧
  n₁.B_.spike_NMDA = n.B_.spike_NMDA ∧ n₁.B_.currents_ = n.B_.currents_ ∧
  n₁.B_.step_ = n.B_.step_ ∧ n₁.B_.I_stim_ = n.B_.I_stim_ ∧
  n₁.last_spike_ = n.last_spike_ ∧ n₁.name = n.name

/-- Every call in the list is a call of the evolve primitive that returned success. -/
def allSuccess {α : Type} (calls : List (Effect α)) : Prop :=
  ∀ c ∈ calls, c = Effect.evolve_apply GSL_SUCCESS

/-- The calls of an integration loop started on a node named `name`, by outcome: only
successful evolve calls, except that a throw carries the status of the one failing call,
which is the last call. -/
def callsSpec {α ν : Type} (name : String) (calls : List (Effect α)) : Outcome ν → Prop
  | .throw e _ => ∃ pre status, status ≠ GSL_SUCCESS ∧
      e = KernelException.GSLSolverFailure name status ∧
      calls = pre ++ [Effect.evolve_apply status] ∧ allSuccess pre
  | _ => allSuccess calls

/-! ## A concrete kernel and neuron over the rationals, for evaluation -/

/-- A kernel over `ℚ` at resolution 0.1 ms: the evolve primitive takes one forward
Euler step of the system function over the whole remaining interval and returns
`status`; `exp` is the Taylor polynomial of degree two. -/
def eulerKernel (status : Int) : Kernel ℚ Unit where
  exp := fun x => 1 + x + x ^ 2 / 2
  gsl_odeiv_evolve_apply := fun e sys t t1 h y =>
    { status := status, e := e, t := t1, h := h,
      y := fun i => y i + (t1 - t) * (sys t y (fun _ => 0)).2 i }
  get_ms := fun s => s / 10
  get_steps := fun x => Int.floor (x * 10)
  resolution_ms := 1 / 10

/-- A neuron over `ℚ` with the default parameters, empty buffers, voltage `V`,
refractory counter `r`, NMDA trace `pre` and 20 refractory steps. -/
def testNode (V : ℚ) (r : Int) (pre : ℚ) : iaf_wang_2002 ℚ Unit where
  P_ := Parameters_.ctor 2
  S_ := { y_ := fun i => if i = .V_m then V else 0, s_NMDA_pre := pre, r_ := r }
  V_ := { RefractoryCounts_ := 20 }
  B_ := { spike_AMPA := fun _ => 0, spike_GABA := fun _ => 0, spike_NMDA := fun _ => 0,
          currents_ := fun _ => 0, e_ := (), step_ := 1 / 10, integration_step_ := 1 / 10,
          I_stim_ := 0 }
  last_spike_ := -1
  name := "iaf_wang_2002"
  effects := []

/-- An incoming spike of weight 3 on receptor port 0, offset payload 1/2, due at lag 3. -/
def testSpike : SpikeEvent ℚ where
  weight := 3
  multiplicity := 1
  rport := 0
  offset := 1 / 2
  delay_steps := 1
  rel_delivery_steps := 3

/-- An incoming current of weight 2 and amplitude 50, due at lag 3. -/
def testCurrent : CurrentEvent ℚ where
  weight := 2
  current := 50
  delay_steps := 1
  rel_delivery_steps := 3

/-- The test neuron after `handle( testSpike )`. -/
def testNodeSpiked (V : ℚ) (r : Int) (pre : ℚ) : iaf_wang_2002 ℚ Unit :=
  { testNode V r pre with
    B_ := { (testNode V r pre).B_ with
      spike_AMPA := RingBuffer.add_value (fun _ => 0) 3 (3 * ((1 : Int) : ℚ))
      spike_NMDA := RingBuffer.add_value (fun _ => 0) 3 (3 * ((1 : Int) : ℚ) * (1 / 2)) } }

/-- Slot `k` of the ring buffer gains `x` from `b` to `b'` and no other slot changes. -/
def slotGains {α : Type} [Add α] (b b' : RingBuffer α) (k : Int) (x : α) : Prop :=
  ∀ j, b' j = if j = k then b j + x else b j

/-- What `handle` leaves alone: everything but the four ring buffers. -/
def handle_frame {α σ : Type} (n n' : iaf_wang_2002 α σ) : Prop :=
  n'.P_ = n.P_ ∧ n'.S_ = n.S_ ∧ n'.V_ = n.V_ ∧ n'.last_spike_ = n.last_spike_ ∧
  n'.name = n.name ∧ n'.effects = n.effects ∧ n'.B_.e_ = n.B_.e_ ∧
  n'.B_.step_ = n.B_.step_ ∧ n'.B_.integration_step_ = n.B_.integration_step_ ∧
  n'.B_.I_stim_ = n.B_.I_stim_

/-- The node `n` with the four ring buffers of `m` in place of its own. -/
def with_ring_buffers {α σ : Type} (m n : iaf_wang_2002 α σ) : iaf_wang_2002 α σ :=
  { n with B_ := { n.B_ with
      spike_AMPA := m.B_.spike_AMPA, spike_GABA := m.B_.spike_GABA,
      spike_NMDA := m.B_.spike_NMDA, currents_ := m.B_.currents_ } }

/-- Source lines 122-129: the constructor `State_::State_( const Parameters_& p )`. `raw` is
the storage of the new object before the constructor runs; the constructor sets `r_` and
the four components of `y_` and has no initialiser for `s_NMDA_pre`, which keeps the
value of the storage. -/
def State_.ctor {α : Type} [LinearOrderedField α] (raw : State_ α) (p : Parameters_ α) :
    State_ α :=
  let s := { raw with r_ := 0 }
  let s := { s with y_ := Function.update s.y_ .V_m p.E_L }
  let s := { s with y_ := Function.update s.y_ .s_AMPA 0.0 }
  let s := { s with y_ := Function.update s.y_ .s_GABA 0.0 }
  { s with y_ := Function.update s.y_ .s_NMDA 0.0 }

/-- Source lines 131-138: the copy constructor `State_::State_( const State_& s )`. `raw` is
the storage of the new object; the constructor copies `r_` and the four components of
`y_` and has no initialiser for `s_NMDA_pre`, which keeps the value of the storage. -/
def State_.copy {α : Type} (raw : State_ α) (s : State_ α) : State_ α :=
  let c := { raw with r_ := s.r_ }
  let c := { c with y_ := Function.update c.y_ .V_m (s.y_ .V_m) }
  let c := { c with y_ := Function.update c.y_ .s_AMPA (s.y_ .s_AMPA) }
  let c := { c with y_ := Function.update c.y_ .s_GABA (s.y_ .s_GABA) }
  { c with y_ := Function.update c.y_ .s_NMDA (s.y_ .s_NMDA) }

/-- Storage over `ℚ` that reads `x` in every component of `y_` and in `s_NMDA_pre`,
and `k` in `r_`. -/
def rawState (x : ℚ) (k : Int) : State_ ℚ where
  y_ := fun _ => x
  s_NMDA_pre := x
  r_ := k

/-! ## Reading the log of calls -/

/-- The data of a `send` call: offset payload, stamp and lag. -/
def Effect.asSend {α : Type} : Effect α → Option (α × Int × Int)
  | .send offset stamp lag => some (offset, stamp, lag)
  | _ => none

/-- The step of a recorder call. -/
def Effect.asRecord {α : Type} : Effect α → Option Int
  | .record_data step => some step
  | _ => none

/-- The `send` calls of a log, in order: offset payload, stamp and lag of each. -/
def sends {α : Type} (log : List (Effect α)) : List (α × Int × Int) :=
  log.filterMap Effect.asSend

/-- The steps of the recorder calls of a log, in order. -/
def recordSteps {α : Type} (log : List (Effect α)) : List Int :=
  log.filterMap Effect.asRecord

/-- The NMDA presynaptic trace of `n` decayed to the time of step `origin + lag + 1`:
`s_NMDA_pre * exp( -( t_spike - t_lastspike ) / tau_decay_NMDA )` (source line 465). -/
def decayed_trace {α σ : Type} [LinearOrderedField α] (K : Kernel α σ) (origin lag : Int)
    (n : iaf_wang_2002 α σ) : α :=
  n.S_.s_NMDA_pre
    * K.exp (-(K.get_ms (origin + lag + 1) - get_spiketime_ms n) / n.P_.tau_decay_NMDA)

/-! ## Buffer initialisation and the resting state -/

/-- Modelled from the spec: `RingBuffer::clear()` zeroes every slot ("cleared on buffer
(re)initialization"). -/
def RingBuffer.clear {α : Type} [Zero α] : RingBuffer α :=
  fun _ => 0

/-- Source lines 324-370: `init_buffers_`. The four ring buffers are cleared, the GSL
structs are allocated or reset (`fresh` is what GSL hands back), both step sizes are set
to the resolution and the injected current to 0; `t_cleared` is the archived spike time
that `ArchivingNode::clear_history()` leaves. -/
def init_buffers_ {α σ : Type} [LinearOrderedField α] (K : Kernel α σ) (fresh : σ)
    (t_cleared : α) (n : iaf_wang_2002 α σ) : iaf_wang_2002 α σ :=
  { n with
    B_ := { spike_AMPA := RingBuffer.clear, spike_GABA := RingBuffer.clear,
            spike_NMDA := RingBuffer.clear, currents_ := RingBuffer.clear,
            e_ := fresh, step_ := K.resolution_ms, integration_step_ := K.resolution_ms,
            I_stim_ := 0.0 }
    last_spike_ := t_cleared }

/-- The evolve primitive leaves a state unchanged when the system function returns a
zero derivative there. -/
def leavesFixedPoints {α σ : Type} [LinearOrderedField α] (K : Kernel α σ) : Prop :=
  ∀ (e : σ) (sys : α → StateVec α → StateVec α → Int × StateVec α) (t t1 h : α)
    (y : StateVec α),
    (∀ f i, (sys t y f).2 i = 0) → (K.gsl_odeiv_evolve_apply e sys t t1 h y).y = y

/-- Zero input at rest: voltage `E_L`, the three gating variables 0, the neuron not
refractory, the four ring buffers empty and no injected current. -/
def atRest {α σ : Type} [LinearOrderedField α] (n : iaf_wang_2002 α σ) : Prop :=
  n.S_.y_ .V_m = n.P_.E_L ∧ n.S_.y_ .s_AMPA = 0 ∧ n.S_.y_ .s_GABA = 0 ∧
  n.S_.y_ .s_NMDA = 0 ∧ n.S_.r_ = 0 ∧
  (∀ k, n.B_.spike_AMPA k = 0) ∧ (∀ k, n.B_.spike_GABA k = 0) ∧
  (∀ k, n.B_.spike_NMDA k = 0) ∧ (∀ k, n.B_.currents_ k = 0) ∧ n.B_.I_stim_ = 0

/-- A neuron over `ℚ` at rest, with the default parameters except for `E_L`. -/
def restNode (E_L : ℚ) : iaf_wang_2002 ℚ Unit :=
  { testNode E_L 0 0 with P_ := { Parameters_.ctor 2 with E_L := E_L } }

/-- The lags of the `send` calls of a log, in order. -/
def spikeLags {α : Type} (log : List (Effect α)) : List Int :=
  (sends log).map (fun s => s.2.2)

/-- A kernel over `ℚ` under strong drive: as `eulerKernel 0`, but the evolve primitive
returns the voltage 0, above the default threshold, whatever the state. -/
def drivenKernel : Kernel ℚ Unit :=
  { eulerKernel 0 with
    gsl_odeiv_evolve_apply := fun e _ _ t1 h y =>
      { status := 0, e := e, t := t1, h := h, y := Function.update y .V_m 0 } }

/-- The NMDA presynaptic trace of `n` is in `[0, 1]`, and it is 0 or the archived spike
time is not later than the time of `step`. -/
def traceInv {α σ : Type} [LinearOrderedField α] (K : Kernel α σ) (step : Int)
    (n : iaf_wang_2002 α σ) : Prop :=
  0 ≤ n.S_.s_NMDA_pre ∧ n.S_.s_NMDA_pre ≤ 1 ∧
    (n.S_.s_NMDA_pre = 0 ∨ get_spiketime_ms n ≤ K.get_ms step)

/-- The kernel `drivenKernel` with an `exp` that is positive everywhere and at most 1 on
non-positive arguments: `1 / (1 - x)` for `x <= 0` and `1 + x` above. -/
def decayKernel : Kernel ℚ Unit :=
  { drivenKernel with exp := fun x => if x ≤ 0 then 1 / (1 - x) else 1 + x }

/-- The test neuron with the state constructed from the default parameters on storage
that reads `x`. -/
def freshNode (x : ℚ) : iaf_wang_2002 ℚ Unit :=
  { testNode 0 0 0 with S_ := State_.ctor (rawState x 0) (Parameters_.ctor 2) }

/-- A neuron over `ℚ` under a constant current: the default parameters, 20 refractory
steps, voltage `V_reset = -60`, the gating variables 0, the spike buffers empty, and the
current 30000 pA in `I_stim_` and in every slot of the current buffer. -/
def currentNode (r : Int) : iaf_wang_2002 ℚ Unit :=
  { testNode (-60) r 0 with
    B_ := { (testNode (-60) r 0).B_ with currents_ := fun _ => 30000, I_stim_ := 30000 } }

/-- What the nodes of the constant-current run look like at the start of lag `lag`:
as `currentNode`, with any refractory counter, trace and log, and the current still in
the slots from `lag` on. -/
def currentInv (lag : Int) (m : iaf_wang_2002 ℚ Unit) : Prop :=
  m.P_ = Parameters_.ctor 2 ∧ m.V_ = { RefractoryCounts_ := 20 } ∧ m.B_.step_ = 1 / 10 ∧
  m.B_.I_stim_ = 30000 ∧ m.S_.y_ .V_m = -60 ∧ m.S_.y_ .s_AMPA = 0 ∧
  m.S_.y_ .s_GABA = 0 ∧ m.S_.y_ .s_NMDA = 0 ∧
  (∀ k, m.B_.spike_AMPA k = 0) ∧ (∀ k, m.B_.spike_GABA k = 0) ∧
  (∀ k, m.B_.spike_NMDA k = 0) ∧ (∀ k, lag ≤ k → m.B_.currents_ k = 30000)

/-! ## Lemmas on parameters -/

theorem updateValueParam_eq_getD {α : Type} (d : DictionaryDatum α) (n : Name) (v : α) :
    updateValueParam d n v = (d n).getD v := by
  unfold updateValueParam
  cases d n <;> rfl

theorem assign_eq_merged {α : Type} (d : DictionaryDatum α) (p : Parameters_ α) :
    Parameters_.assign d p = merged d p := by
  simp only [Parameters_.assign, merged, updateValueParam_eq_getD]

theorem set_eq_ok_iff {α : Type} [LinearOrderedField α] (d : DictionaryDatum α)
    (p : Parameters_ α) :
    Parameters_.set d p = .ok (merged d p) ↔ (merged d p).valid := by
  unfold Parameters_.set Parameters_.valid
  simp only [assign_eq_merged]
  constructor
  · intro h
    split_ifs at h with h1 h2 h3 h4 h5 h6 h7
    simp only [not_or, not_le, not_lt, ge_iff_le] at h1 h2 h3 h4 h5 h6 h7
    exact ⟨h1, h2, h3, h4.1, h4.2.1, h4.2.2.1, h4.2.2.2, h5, h6, h7⟩
  · rintro ⟨h1, h2, h3, h4, h5, h6, h7, h8, h9, h10⟩
    rw [if_neg (by simpa using h1), if_neg (by simpa using h2), if_neg (by simpa using h3),
      if_neg (by simp [h4, h5, h6, h7]), if_neg (by simpa using h8),
      if_neg (by simpa using h9), if_neg (by simpa using h10)]

theorem set_cases {α : Type} [LinearOrderedField α] (d : DictionaryDatum α)
    (p : Parameters_ α) :
    Parameters_.set d p = .ok (merged d p) ∨
      ∃ msg, Parameters_.set d p = .throw (.BadProperty msg) (merged d p) := by
  unfold Parameters_.set
  simp only [assign_eq_merged]
  split_ifs
  all_goals first
    | exact Or.inl rfl
    | exact Or.inr ⟨_, rfl⟩

/-! ## Lemmas on the integration loop -/

theorem integrate_frame_refl {α σ : Type} (n : iaf_wang_2002 α σ) : integrate_frame n n :=
  ⟨rfl, rfl, rfl, rfl, rfl, rfl, rfl, rfl, rfl, rfl, rfl, rfl⟩

theorem integrate_frame_trans {α σ : Type} {a b c : iaf_wang_2002 α σ}
    (h₁ : integrate_frame a b) (h₂ : integrate_frame b c) : integrate_frame a c := by
  obtain ⟨a1, a2, a3, a4, a5, a6, a7, a8, a9, a10, a11, a12⟩ := h₁
  obtain ⟨b1, b2, b3, b4, b5, b6, b7, b8, b9, b10, b11, b12⟩ := h₂
  exact ⟨b1.trans a1, b2.trans a2, b3.trans a3, b4.trans a4, b5.trans a5, b6.trans a6,
    b7.trans a7, b8.trans a8, b9.trans a9, b10.trans a10, b11.trans a11, b12.trans a12⟩

theorem allSuccess_nil {α : Type} : allSuccess ([] : List (Effect α)) := by
  intro c hc
  cases hc

theorem allSuccess_cons {α : Type} {calls : List (Effect α)} (h : allSuccess calls) :
    allSuccess (Effect.evolve_apply GSL_SUCCESS :: calls) := by
  intro c hc
  rcases List.mem_cons.1 hc with rfl | hc
  · rfl
  · exact h c hc

/-- The integration loop: frame, and the calls it adds to the log. -/
theorem integrate_spec {α σ : Type} [LinearOrderedField α] (K : Kernel α σ) (fuel : Nat) :
    ∀ (t : α) (n : iaf_wang_2002 α σ),
      integrate_frame n (integrate K fuel t n).state ∧
      ∃ calls, (integrate K fuel t n).state.effects = n.effects ++ calls ∧
        callsSpec n.name calls (integrate K fuel t n) := by
  induction fuel with
  | zero =>
    intro t n
    unfold integrate
    split_ifs
    · exact ⟨integrate_frame_refl n, [], by simp [Outcome.state], allSuccess_nil⟩
    · exact ⟨integrate_frame_refl n, [], by simp [Outcome.state], allSuccess_nil⟩
  | succ fuel ih =>
    intro t n
    unfold integrate
    have hstore : integrate_frame n (evolve_store n (evolve_call K t n)) :=
      ⟨rfl, rfl, rfl, rfl, rfl, rfl, rfl, rfl, rfl, rfl, rfl, rfl⟩
    split_ifs with ht hs
    · refine ⟨hstore, _, rfl, ?_⟩
      exact ⟨[], _, hs, rfl, by simp, allSuccess_nil⟩
    · simp only [ne_eq, not_not] at hs
      obtain ⟨hf, calls, hc, hspec⟩ := ih (evolve_call K t n).t
        (evolve_store n (evolve_call K t n))
      refine ⟨integrate_frame_trans hstore hf, Effect.evolve_apply GSL_SUCCESS :: calls, ?_, ?_⟩
      · rw [hc]
        simp [evolve_store, hs]
      · revert hspec
        cases integrate K fuel _ _ with
        | ok m => exact fun h => allSuccess_cons h
        | diverge m => exact fun h => allSuccess_cons h
        | throw e m =>
          rintro ⟨pre, status, h1, h2, h3, h4⟩
          exact ⟨Effect.evolve_apply GSL_SUCCESS :: pre, status, h1, h2, by simp [h3],
            allSuccess_cons h4⟩
    · exact ⟨integrate_frame_refl n, [], by simp [Outcome.state], allSuccess_nil⟩

/-! ## Lemmas on one lag -/

theorem add_incoming_spikes_frame {α σ : Type} [LinearOrderedField α] (lag : Int)
    (n : iaf_wang_2002 α σ) :
    (add_incoming_spikes lag n).P_ = n.P_ ∧ (add_incoming_spikes lag n).V_ = n.V_ ∧
      (add_incoming_spikes lag n).S_.r_ = n.S_.r_ ∧
      (add_incoming_spikes lag n).S_.s_NMDA_pre = n.S_.s_NMDA_pre ∧
      (add_incoming_spikes lag n).last_spike_ = n.last_spike_ ∧
      (add_incoming_spikes lag n).effects = n.effects ∧
      (add_incoming_spikes lag n).name = n.name ∧
      (add_incoming_spikes lag n).B_.currents_ = n.B_.currents_ ∧
      (add_incoming_spikes lag n).B_.I_stim_ = n.B_.I_stim_ ∧
      (add_incoming_spikes lag n).B_.step_ = n.B_.step_ :=
  ⟨rfl, rfl, rfl, rfl, rfl, rfl, rfl, rfl, rfl, rfl⟩

theorem add_incoming_spikes_V_m {α σ : Type} [LinearOrderedField α] (lag : Int)
    (n : iaf_wang_2002 α σ) :
    (add_incoming_spikes lag n).S_.y_ .V_m = n.S_.y_ .V_m := by
  unfold add_incoming_spikes
  dsimp only
  split_ifs <;> simp [Function.update]

theorem add_incoming_spikes_s_AMPA {α σ : Type} [LinearOrderedField α] (lag : Int)
    (n : iaf_wang_2002 α σ) :
    (add_incoming_spikes lag n).S_.y_ .s_AMPA = n.S_.y_ .s_AMPA + n.B_.spike_AMPA lag := by
  unfold add_incoming_spikes
  dsimp only
  split_ifs <;> simp [Function.update, RingBuffer.get_value]

theorem add_incoming_spikes_s_GABA {α σ : Type} [LinearOrderedField α] (lag : Int)
    (n : iaf_wang_2002 α σ) :
    (add_incoming_spikes lag n).S_.y_ .s_GABA = n.S_.y_ .s_GABA + n.B_.spike_GABA lag := by
  unfold add_incoming_spikes
  dsimp only
  split_ifs <;> simp [Function.update, RingBuffer.get_value]

theorem add_incoming_spikes_s_NMDA {α σ : Type} [LinearOrderedField α] (lag : Int)
    (n : iaf_wang_2002 α σ) :
    (add_incoming_spikes lag n).S_.y_ .s_NMDA =
      min 1 (n.S_.y_ .s_NMDA + n.B_.spike_NMDA lag) := by
  unfold add_incoming_spikes
  dsimp only
  split_ifs with h
  · simp only [Function.update_same, RingBuffer.get_value] at h ⊢
    exact (min_eq_left h.le).symm
  · simp only [Function.update_same, RingBuffer.get_value, not_lt] at h ⊢
    exact (min_eq_right h).symm

theorem add_incoming_spikes_buffers {α σ : Type} [LinearOrderedField α] (lag : Int)
    (n : iaf_wang_2002 α σ) :
    (add_incoming_spikes lag n).B_.spike_AMPA = (RingBuffer.get_value n.B_.spike_AMPA lag).2 ∧
      (add_incoming_spikes lag n).B_.spike_GABA
        = (RingBuffer.get_value n.B_.spike_GABA lag).2 ∧
      (add_incoming_spikes lag n).B_.spike_NMDA
        = (RingBuffer.get_value n.B_.spike_NMDA lag).2 :=
  ⟨rfl, rfl, rfl⟩

/-- The transition in the refractory branch. -/
theorem threshold_step_refractory {α σ : Type} [LinearOrderedField α] (K : Kernel α σ)
    (origin lag : Int) (n : iaf_wang_2002 α σ) (hr : n.S_.r_ ≠ 0) :
    threshold_step K origin lag n =
      { n with S_ := { n.S_ with
          r_ := n.S_.r_ - 1, y_ := Function.update n.S_.y_ .V_m n.P_.V_reset } } := by
  unfold threshold_step
  rw [if_pos hr]

/-- The transition in the spiking branch. -/
theorem threshold_step_spike {α σ : Type} [LinearOrderedField α] (K : Kernel α σ)
    (origin lag : Int) (n : iaf_wang_2002 α σ) (hr : n.S_.r_ = 0)
    (hV : n.S_.y_ .V_m ≥ n.P_.V_th) :
    threshold_step K origin lag n =
      { n with
        S_ := { r_ := n.V_.RefractoryCounts_
                y_ := Function.update n.S_.y_ .V_m n.P_.V_reset
                s_NMDA_pre :=
                  n.S_.s_NMDA_pre * K.exp (-(K.get_ms (origin + lag + 1) - n.last_spike_)
                      / n.P_.tau_decay_NMDA)
                    + n.P_.alpha * (1 - n.S_.s_NMDA_pre
                      * K.exp (-(K.get_ms (origin + lag + 1) - n.last_spike_)
                        / n.P_.tau_decay_NMDA)) }
        last_spike_ := K.get_ms (origin + lag + 1)
        effects := n.effects ++
          [.send (n.P_.alpha * (1 - n.S_.s_NMDA_pre
            * K.exp (-(K.get_ms (origin + lag + 1) - n.last_spike_)
              / n.P_.tau_decay_NMDA))) (origin + lag + 1) lag] } := by
  unfold threshold_step
  rw [if_neg (by simpa using hr), if_pos hV]
  rfl

/-- The transition in the sub-threshold branch. -/
theorem threshold_step_subthreshold {α σ : Type} [LinearOrderedField α] (K : Kernel α σ)
    (origin lag : Int) (n : iaf_wang_2002 α σ) (hr : n.S_.r_ = 0)
    (hV : n.S_.y_ .V_m < n.P_.V_th) :
    threshold_step K origin lag n = n := by
  unfold threshold_step
  rw [if_neg (by simpa using hr), if_neg (not_le.2 hV)]

/-- The transition never touches the gating variables. -/
theorem threshold_step_gating {α σ : Type} [LinearOrderedField α] (K : Kernel α σ)
    (origin lag : Int) (n : iaf_wang_2002 α σ) (i : StateVecElems) (hi : i ≠ .V_m) :
    (threshold_step K origin lag n).S_.y_ i = n.S_.y_ i := by
  by_cases hr : n.S_.r_ = 0
  · rcases le_or_lt n.P_.V_th (n.S_.y_ .V_m) with hV | hV
    · rw [threshold_step_spike K origin lag n hr hV]
      simp [Function.update, hi]
    · rw [threshold_step_subthreshold K origin lag n hr hV]
  · rw [threshold_step_refractory K origin lag n hr]
    simp [Function.update, hi]

/-- The transition leaves parameters, variables and buffers alone. -/
theorem threshold_step_frame {α σ : Type} [LinearOrderedField α] (K : Kernel α σ)
    (origin lag : Int) (n : iaf_wang_2002 α σ) :
    (threshold_step K origin lag n).P_ = n.P_ ∧ (threshold_step K origin lag n).V_ = n.V_ ∧
      (threshold_step K origin lag n).B_ = n.B_ ∧
      (threshold_step K origin lag n).name = n.name := by
  by_cases hr : n.S_.r_ = 0
  · rcases le_or_lt n.P_.V_th (n.S_.y_ .V_m) with hV | hV
    · rw [threshold_step_spike K origin lag n hr hV]
      exact ⟨rfl, rfl, rfl, rfl⟩
    · rw [threshold_step_subthreshold K origin lag n hr hV]
      exact ⟨rfl, rfl, rfl, rfl⟩
  · rw [threshold_step_refractory K origin lag n hr]
    exact ⟨rfl, rfl, rfl, rfl⟩

theorem set_current_and_record_frame {α σ : Type} [LinearOrderedField α]
    (origin lag : Int) (n : iaf_wang_2002 α σ) :
    (set_current_and_record origin lag n).P_ = n.P_ ∧
      (set_current_and_record origin lag n).V_ = n.V_ ∧
      (set_current_and_record origin lag n).S_ = n.S_ ∧
      (set_current_and_record origin lag n).last_spike_ = n.last_spike_ ∧
      (set_current_and_record origin lag n).name = n.name ∧
      (set_current_and_record origin lag n).B_.spike_AMPA = n.B_.spike_AMPA ∧
      (set_current_and_record origin lag n).B_.spike_GABA = n.B_.spike_GABA ∧
      (set_current_and_record origin lag n).B_.spike_NMDA = n.B_.spike_NMDA ∧
      (set_current_and_record origin lag n).B_.step_ = n.B_.step_ ∧
      (set_current_and_record origin lag n).effects
        = n.effects ++ [.record_data (origin + lag)] :=
  ⟨rfl, rfl, rfl, rfl, rfl, rfl, rfl, rfl, rfl, rfl⟩


theorem update_lag_of_integrate {α σ : Type} [LinearOrderedField α] (K : Kernel α σ)
    (fuel : Nat) (origin lag : Int) (n n₁ : iaf_wang_2002 α σ)
    (h : integrate K fuel 0 n = .ok n₁) :
    update_lag K fuel origin lag n =
      .ok (set_current_and_record origin lag
        (threshold_step K origin lag (add_incoming_spikes lag n₁))) := by
  simp only [update_lag, h]

theorem update_lag_eq_ok {α σ : Type} [LinearOrderedField α] (K : Kernel α σ)
    (fuel : Nat) (origin lag : Int) (n n₂ : iaf_wang_2002 α σ)
    (h : update_lag K fuel origin lag n = .ok n₂) :
    ∃ n₁, integrate K fuel 0 n = .ok n₁ ∧
      n₂ = set_current_and_record origin lag
        (threshold_step K origin lag (add_incoming_spikes lag n₁)) := by
  unfold update_lag at h
  cases hi : integrate K fuel 0 n with
  | ok m =>
    rw [hi] at h
    simp only [Outcome.ok.injEq] at h
    exact ⟨m, rfl, h.symm⟩
  | throw e m => rw [hi] at h; cases h
  | diverge m => rw [hi] at h; cases h

theorem integrate_frame_of_ok {α σ : Type} [LinearOrderedField α] (K : Kernel α σ)
    (fuel : Nat) (t : α) (n n₁ : iaf_wang_2002 α σ) (h : integrate K fuel t n = .ok n₁) :
    integrate_frame n n₁ := by
  have := (integrate_spec K fuel t n).1
  rw [h] at this
  exact this

theorem integrate_euler_ok (V : ℚ) (r : Int) (pre : ℚ) :
    integrate (eulerKernel 0) 1 0 (testNode V r pre) =
      .ok (evolve_store (testNode V r pre) (evolve_call (eulerKernel 0) 0 (testNode V r pre))) := by
  simp [integrate, evolve_call, evolve_store, eulerKernel, testNode, GSL_SUCCESS]

theorem integrate_euler_total (m : iaf_wang_2002 ℚ Unit) :
    ∃ m', integrate (eulerKernel 0) 1 0 m = .ok m' := by
  by_cases h : (0 : ℚ) < m.B_.step_
  · exact ⟨evolve_store m (evolve_call (eulerKernel 0) 0 m), by
      simp [integrate, h, evolve_call, evolve_store, eulerKernel, GSL_SUCCESS]⟩
  · exact ⟨m, by simp [integrate, h]⟩

/-- The integration loop does not read the ring buffers. -/
theorem integrate_with_ring_buffers {α σ : Type} [LinearOrderedField α] (K : Kernel α σ)
    (m : iaf_wang_2002 α σ) (fuel : Nat) :
    ∀ (t : α) (n : iaf_wang_2002 α σ),
      integrate K fuel t (with_ring_buffers m n) =
        (integrate K fuel t n).map (with_ring_buffers m) := by
  induction fuel with
  | zero =>
    intro t n
    unfold integrate
    have : (with_ring_buffers m n).B_.step_ = n.B_.step_ := rfl
    rw [this]
    split_ifs <;> rfl
  | succ fuel ih =>
    intro t n
    unfold integrate
    have h1 : (with_ring_buffers m n).B_.step_ = n.B_.step_ := rfl
    have h2 : evolve_call K t (with_ring_buffers m n) = evolve_call K t n := rfl
    have h3 : evolve_store (with_ring_buffers m n) (evolve_call K t n) =
        with_ring_buffers m (evolve_store n (evolve_call K t n)) := rfl
    have h4 : (with_ring_buffers m n).name = n.name := rfl
    rw [h1, h2, h3, h4]
    split_ifs
    · rfl
    · exact ih _ _
    · rfl

theorem handle_SpikeEvent_excitatory {α σ : Type} [LinearOrderedField α]
    (e : SpikeEvent α) (n n' : iaf_wang_2002 α σ) (hw : e.weight > 0)
    (h : handle_SpikeEvent e n = some n') :
    n' = with_ring_buffers n' n ∧
      n'.B_.spike_AMPA = RingBuffer.add_value n.B_.spike_AMPA e.rel_delivery_steps
        (e.weight * e.multiplicity) ∧
      n'.B_.spike_GABA = n.B_.spike_GABA := by
  unfold handle_SpikeEvent at h
  rw [if_pos hw] at h
  split_ifs at h
  all_goals
    simp only [Option.some.injEq] at h
    subst h
    exact ⟨rfl, rfl, rfl⟩

theorem integrate_one_ok {α σ : Type} [LinearOrderedField α] (K : Kernel α σ)
    (n : iaf_wang_2002 α σ) (hstep : 0 < n.B_.step_)
    (hs : (evolve_call K 0 n).status = GSL_SUCCESS)
    (ht : (evolve_call K 0 n).t = n.B_.step_) :
    integrate K 1 0 n = .ok (evolve_store n (evolve_call K 0 n)) := by
  have h : (evolve_store n (evolve_call K 0 n)).B_.step_ = n.B_.step_ := rfl
  simp [integrate, hstep, hs, ht, h]

theorem update_loop_succ {α σ : Type} [LinearOrderedField α] (K : Kernel α σ) (fuel : Nat)
    (origin : Int) (count : Nat) (lag : Int) (n : iaf_wang_2002 α σ) :
    update_loop K fuel origin (count + 1) lag n =
      (update_lag K fuel origin lag n).andThen (update_loop K fuel origin count (lag + 1)) := by
  rw [update_loop]
  cases update_lag K fuel origin lag n <;> rfl

/-- Running `a + b` lags is running `a` lags and then `b` lags from lag `lag + a`. -/
theorem update_loop_add {α σ : Type} [LinearOrderedField α] (K : Kernel α σ) (fuel : Nat)
    (origin : Int) (a b : Nat) :
    ∀ (lag : Int) (n : iaf_wang_2002 α σ),
      update_loop K fuel origin (a + b) lag n =
        (update_loop K fuel origin a lag n).andThen (update_loop K fuel origin b (lag + a)) := by
  induction a with
  | zero =>
    intro lag n
    simp [update_loop, Outcome.andThen]
  | succ a ih =>
    intro lag n
    rw [Nat.add_right_comm, update_loop_succ, update_loop_succ]
    cases update_lag K fuel origin lag n with
    | ok m =>
      simp only [Outcome.andThen]
      rw [ih (lag + 1) m]
      have : lag + 1 + (a : Int) = lag + ((a + 1 : Nat) : Int) := by push_cast; ring
      rw [this]
      rfl
    | throw e m => rfl
    | diverge m => rfl

theorem update_loop_one {α σ : Type} [LinearOrderedField α] (K : Kernel α σ) (fuel : Nat)
    (origin lag : Int) (n : iaf_wang_2002 α σ) :
    update_loop K fuel origin 1 lag n = update_lag K fuel origin lag n := by
  rw [update_loop_succ]
  cases update_lag K fuel origin lag n <;> rfl

theorem update_eq_loop {α σ : Type} [LinearOrderedField α] (K : Kernel α σ) (fuel : Nat)
    (origin from_ : Int) (j : Nat) (n : iaf_wang_2002 α σ) :
    update K fuel origin from_ (from_ + j) n = update_loop K fuel origin j from_ n := by
  unfold update
  simp

/-- One refractory lag: the voltage is clamped and the counter goes down by one. -/
theorem update_lag_refractory {α σ : Type} [LinearOrderedField α] (K : Kernel α σ)
    (fuel : Nat) (origin lag : Int) (n n₁ : iaf_wang_2002 α σ)
    (hint : integrate K fuel 0 n = .ok n₁) (hr : n.S_.r_ ≠ 0) :
    ∃ n₂, update_lag K fuel origin lag n = .ok n₂ ∧ n₂.P_ = n.P_ ∧
      n₂.S_.y_ .V_m = n.P_.V_reset ∧ n₂.S_.r_ = n.S_.r_ - 1 := by
  obtain ⟨f1, f2, f3, f4, f5, f6, f7, f8, f9, f10, f11, f12⟩ :=
    integrate_frame_of_ok K fuel 0 n n₁ hint
  refine ⟨_, update_lag_of_integrate K fuel origin lag n n₁ hint, ?_⟩
  obtain ⟨c1, c2, c3, c4, c5, c6, c7, c8, c9, c10⟩ := set_current_and_record_frame origin lag
    (threshold_step K origin lag (add_incoming_spikes lag n₁))
  obtain ⟨a1, a2, a3, a4, a5, a6, a7, a8, a9, a10⟩ := add_incoming_spikes_frame lag n₁
  have hr' : (add_incoming_spikes lag n₁).S_.r_ ≠ 0 := by rw [a3, f3]; exact hr
  rw [c1, c3, threshold_step_refractory K origin lag _ hr']
  simp only [a1, a3, f1, f3, Function.update_same, and_self]

/-! ## Lemmas on integration failures -/

theorem isEvolve_of_allSuccess {α : Type} {calls : List (Effect α)} (h : allSuccess calls) :
    ∀ c ∈ calls, c.isEvolve = true := by
  intro c hc
  rw [h c hc]
  rfl

theorem sends_append {α : Type} (xs ys : List (Effect α)) :
    sends (xs ++ ys) = sends xs ++ sends ys := by
  simp [sends, List.filterMap_append]

theorem recordSteps_append {α : Type} (xs ys : List (Effect α)) :
    recordSteps (xs ++ ys) = recordSteps xs ++ recordSteps ys := by
  simp [recordSteps, List.filterMap_append]

theorem sends_of_isEvolve {α : Type} (calls : List (Effect α))
    (h : ∀ c ∈ calls, c.isEvolve = true) : sends calls = [] := by
  induction calls with
  | nil => rfl
  | cons c cs ih =>
    have hc := h c (List.mem_cons_self _ _)
    have hcs := ih (fun x hx => h x (List.mem_cons_of_mem _ hx))
    cases c with
    | evolve_apply s => simpa [sends, Effect.asSend] using hcs
    | send o st l => simp [Effect.isEvolve] at hc
    | record_data st => simp [Effect.isEvolve] at hc

theorem recordSteps_of_isEvolve {α : Type} (calls : List (Effect α))
    (h : ∀ c ∈ calls, c.isEvolve = true) : recordSteps calls = [] := by
  induction calls with
  | nil => rfl
  | cons c cs ih =>
    have hc := h c (List.mem_cons_self _ _)
    have hcs := ih (fun x hx => h x (List.mem_cons_of_mem _ hx))
    cases c with
    | evolve_apply s => simpa [recordSteps, Effect.asRecord] using hcs
    | send o st l => simp [Effect.isEvolve] at hc
    | record_data st => simp [Effect.isEvolve] at hc

/-- One lag whose integration loop finished: the node after the lag, by branch. -/
theorem update_lag_branches {α σ : Type} [LinearOrderedField α] (K : Kernel α σ)
    (fuel : Nat) (origin lag : Int) (n n₁ : iaf_wang_2002 α σ)
    (hint : integrate K fuel 0 n = .ok n₁) :
    ∃ n₂ calls, update_lag K fuel origin lag n = .ok n₂ ∧
      n₁.effects = n.effects ++ calls ∧ (∀ c ∈ calls, c.isEvolve = true) ∧
      n₂.P_ = n.P_ ∧ n₂.V_ = n.V_ ∧ n₂.B_.step_ = n.B_.step_ ∧ n₂.name = n.name ∧
      (n.S_.r_ ≠ 0 →
        n₂.effects = n.effects ++ calls ++ [.record_data (origin + lag)] ∧
        n₂.S_.r_ = n.S_.r_ - 1 ∧ n₂.S_.s_NMDA_pre = n.S_.s_NMDA_pre ∧
        n₂.last_spike_ = n.last_spike_ ∧ n₂.S_.y_ .V_m = n.P_.V_reset) ∧
      (n.S_.r_ = 0 → n.P_.V_th ≤ n₁.S_.y_ .V_m →
        n₂.effects = n.effects ++ calls ++
          [.send (n.P_.alpha * (1 - decayed_trace K origin lag n)) (origin + lag + 1) lag,
            .record_data (origin + lag)] ∧
        n₂.S_.r_ = n.V_.RefractoryCounts_ ∧
        n₂.S_.s_NMDA_pre = decayed_trace K origin lag n
          + n.P_.alpha * (1 - decayed_trace K origin lag n) ∧
        n₂.last_spike_ = K.get_ms (origin + lag + 1) ∧ n₂.S_.y_ .V_m = n.P_.V_reset) ∧
      (n.S_.r_ = 0 → n₁.S_.y_ .V_m < n.P_.V_th →
        n₂.effects = n.effects ++ calls ++ [.record_data (origin + lag)] ∧
        n₂.S_.r_ = 0 ∧ n₂.S_.s_NMDA_pre = n.S_.s_NMDA_pre ∧
        n₂.last_spike_ = n.last_spike_ ∧ n₂.S_.y_ .V_m = n₁.S_.y_ .V_m) := by
  obtain ⟨f1, f2, f3, f4, f5, f6, f7, f8, f9, f10, f11, f12⟩ :=
    integrate_frame_of_ok K fuel 0 n n₁ hint
  obtain ⟨calls, hc, hev⟩ : ∃ calls, n₁.effects = n.effects ++ calls ∧
      ∀ c ∈ calls, c.isEvolve = true := by
    obtain ⟨-, calls, hc, hspec⟩ := integrate_spec K fuel 0 n
    rw [hint] at hc hspec
    exact ⟨calls, hc, isEvolve_of_allSuccess hspec⟩
  obtain ⟨c1, c2, c3, c4, c5, c6, c7, c8, c9, c10⟩ := set_current_and_record_frame origin lag
    (threshold_step K origin lag (add_incoming_spikes lag n₁))
  obtain ⟨a1, a2, a3, a4, a5, a6, a7, a8, a9, a10⟩ := add_incoming_spikes_frame lag n₁
  obtain ⟨t1, t2, t3, t4⟩ := threshold_step_frame K origin lag (add_incoming_spikes lag n₁)
  have aV := add_incoming_spikes_V_m lag n₁
  refine ⟨_, calls, update_lag_of_integrate K fuel origin lag n n₁ hint, hc, hev,
    by rw [c1, t1, a1, f1], by rw [c2, t2, a2, f2], by rw [c9, t3, a10, f9],
    by rw [c5, t4, a7, f12], ?_, ?_, ?_⟩
  · intro hr
    have hr' : (add_incoming_spikes lag n₁).S_.r_ ≠ 0 := by rw [a3, f3]; exact hr
    rw [c10, c3, c4, threshold_step_refractory K origin lag _ hr']
    simp only [a1, a3, a4, a5, a6, f1, f3, f4, f11, hc, Function.update_same, and_self]
  · intro hr hV
    have hr' : (add_incoming_spikes lag n₁).S_.r_ = 0 := by rw [a3, f3]; exact hr
    have hV' : (add_incoming_spikes lag n₁).S_.y_ .V_m ≥ (add_incoming_spikes lag n₁).P_.V_th := by
      rw [aV, a1, f1]; exact hV
    rw [c10, c3, c4, threshold_step_spike K origin lag _ hr' hV']
    simp only [a1, a2, a4, a5, a6, f1, f2, f4, f11, hc, decayed_trace, get_spiketime_ms,
      Function.update_same, List.append_assoc, List.singleton_append, List.cons_append,
      List.nil_append, and_self]
  · intro hr hV
    have hr' : (add_incoming_spikes lag n₁).S_.r_ = 0 := by rw [a3, f3]; exact hr
    have hV' : (add_incoming_spikes lag n₁).S_.y_ .V_m < (add_incoming_spikes lag n₁).P_.V_th := by
      rw [aV, a1, f1]; exact hV
    rw [c10, c3, c4, threshold_step_subthreshold K origin lag _ hr' hV']
    simp only [a3, a4, a5, a6, aV, f3, f4, f11, hc, hr, and_self]

/-- One lag that returns makes exactly one recorder call, for its own step. -/
theorem update_lag_records {α σ : Type} [LinearOrderedField α] (K : Kernel α σ)
    (fuel : Nat) (origin lag : Int) (n n₂ : iaf_wang_2002 α σ)
    (h : update_lag K fuel origin lag n = .ok n₂) :
    ∃ new, n₂.effects = n.effects ++ new ∧ recordSteps new = [origin + lag] := by
  obtain ⟨n₁, hint, -⟩ := update_lag_eq_ok K fuel origin lag n n₂ h
  obtain ⟨m, calls, hm, -, hev, -, -, -, -, hR, hS, hU⟩ :=
    update_lag_branches K fuel origin lag n n₁ hint
  rw [hm] at h
  simp only [Outcome.ok.injEq] at h
  subst h
  have hrc := recordSteps_of_isEvolve calls hev
  by_cases hr : n.S_.r_ = 0
  · rcases le_or_lt n.P_.V_th (n₁.S_.y_ .V_m) with hV | hV
    · obtain ⟨he, -⟩ := hS hr hV
      refine ⟨calls ++ [_, _], by rw [he, List.append_assoc], ?_⟩
      rw [recordSteps_append, hrc]
      simp [recordSteps, Effect.asRecord]
    · obtain ⟨he, -⟩ := hU hr hV
      refine ⟨calls ++ [_], by rw [he, List.append_assoc], ?_⟩
      rw [recordSteps_append, hrc]
      simp [recordSteps, Effect.asRecord]
  · obtain ⟨he, -⟩ := hR hr
    refine ⟨calls ++ [_], by rw [he, List.append_assoc], ?_⟩
    rw [recordSteps_append, hrc]
    simp [recordSteps, Effect.asRecord]

/-- A loop over lags that returns makes its recorder calls in the order of the lags. -/
theorem update_loop_records {α σ : Type} [LinearOrderedField α] (K : Kernel α σ)
    (fuel : Nat) (origin : Int) (count : Nat) :
    ∀ (lag : Int) (n n' : iaf_wang_2002 α σ),
      update_loop K fuel origin count lag n = .ok n' →
      ∃ new, n'.effects = n.effects ++ new ∧
        recordSteps new = List.map (fun k : Nat => origin + lag + k) (List.range count) := by
  induction count with
  | zero =>
    intro lag n n' h
    simp only [update_loop, Outcome.ok.injEq] at h
    subst h
    exact ⟨[], by simp, rfl⟩
  | succ count ih =>
    intro lag n n' h
    rw [update_loop_succ] at h
    cases hl : update_lag K fuel origin lag n with
    | ok m =>
      rw [hl] at h
      obtain ⟨new₁, he₁, hr₁⟩ := update_lag_records K fuel origin lag n m hl
      obtain ⟨new₂, he₂, hr₂⟩ := ih (lag + 1) m n' h
      refine ⟨new₁ ++ new₂, by rw [he₂, he₁, List.append_assoc], ?_⟩
      rw [recordSteps_append, hr₁, hr₂, List.range_succ_eq_map]
      simp only [List.map_cons, List.map_map, Nat.cast_zero, add_zero, List.singleton_append,
        List.cons.injEq, true_and]
      apply List.map_congr_left
      intro k _
      simp only [Function.comp, Nat.cast_succ]
      ring
    | throw e m => rw [hl] at h; cases h
    | diverge m => rw [hl] at h; cases h

/-! ## Lemmas on the resting state -/

/-- At rest the dynamics function returns a zero derivative. -/
theorem dynamics_zero_atRest {α σ : Type} [LinearOrderedField α] (K : Kernel α σ)
    (n : iaf_wang_2002 α σ) (h : atRest n) (t : α) (f : StateVec α) (i : StateVecElems) :
    (iaf_wang_2002_dynamics K n t n.S_.y_ f).2 i = 0 := by
  obtain ⟨hV, hA, hG, hN, -, -, -, -, -, hI⟩ := h
  cases i <;> simp [iaf_wang_2002_dynamics, Function.update, hV, hA, hG, hN, hI]

/-- With an evolve primitive that leaves fixed points alone, the integration loop
started at rest ends at rest with the same state. -/
theorem integrate_atRest {α σ : Type} [LinearOrderedField α] (K : Kernel α σ)
    (hfix : leavesFixedPoints K) (fuel : Nat) :
    ∀ (t : α) (n : iaf_wang_2002 α σ), atRest n →
      (integrate K fuel t n).state.S_ = n.S_ := by
  induction fuel with
  | zero =>
    intro t n _
    unfold integrate
    split_ifs <;> rfl
  | succ fuel ih =>
    intro t n hn
    have hy : (evolve_call K t n).y = n.S_.y_ :=
      hfix _ _ _ _ _ _ (fun f i => dynamics_zero_atRest K n hn t f i)
    have hS : (evolve_store n (evolve_call K t n)).S_ = n.S_ := by
      simp only [evolve_store, hy]
    have hrest : atRest (evolve_store n (evolve_call K t n)) := by
      obtain ⟨h1, h2, h3, h4, h5, h6, h7, h8, h9, h10⟩ := hn
      unfold atRest
      rw [hS]
      exact ⟨h1, h2, h3, h4, h5, h6, h7, h8, h9, h10⟩
    unfold integrate
    split_ifs
    · exact hS
    · rw [ih _ _ hrest, hS]
    · rfl

/-- One lag from rest with `E_L < V_th`: the lag ends at rest and sends nothing. -/
theorem update_lag_atRest {α σ : Type} [LinearOrderedField α] (K : Kernel α σ)
    (hfix : leavesFixedPoints K) (fuel : Nat) (origin lag : Int)
    (n n₁ : iaf_wang_2002 α σ) (hn : atRest n) (hE : n.P_.E_L < n.P_.V_th)
    (hint : integrate K fuel 0 n = .ok n₁) :
    ∃ n₂ new, update_lag K fuel origin lag n = .ok n₂ ∧ atRest n₂ ∧ n₂.P_ = n.P_ ∧
      n₂.effects = n.effects ++ new ∧ sends new = [] := by
  obtain ⟨f1, f2, f3, f4, f5, f6, f7, f8, f9, f10, f11, f12⟩ :=
    integrate_frame_of_ok K fuel 0 n n₁ hint
  have hS : n₁.S_ = n.S_ := by
    have := integrate_atRest K hfix fuel 0 n hn
    rw [hint] at this
    exact this
  obtain ⟨hV, hA, hG, hN, hr, bA, bG, bN, bC, hI⟩ := hn
  obtain ⟨n₂, calls, hm, -, hev, hP, -, -, -, -, -, hU⟩ :=
    update_lag_branches K fuel origin lag n n₁ hint
  have hVlt : n₁.S_.y_ .V_m < n.P_.V_th := by rw [hS, hV]; exact hE
  obtain ⟨he, hr₂, -, -, hV₂⟩ := hU hr hVlt
  have hn₂ := update_lag_of_integrate K fuel origin lag n n₁ hint
  rw [hm] at hn₂
  simp only [Outcome.ok.injEq] at hn₂
  have hr' : (add_incoming_spikes lag n₁).S_.r_ = 0 := by
    rw [(add_incoming_spikes_frame lag n₁).2.2.1, f3]; exact hr
  have hV' : (add_incoming_spikes lag n₁).S_.y_ .V_m < (add_incoming_spikes lag n₁).P_.V_th := by
    rw [add_incoming_spikes_V_m, (add_incoming_spikes_frame lag n₁).1, f1]; exact hVlt
  have hthr := threshold_step_subthreshold K origin lag _ hr' hV'
  rw [hthr] at hn₂
  obtain ⟨c1, c2, c3, c4, c5, c6, c7, c8, c9, c10⟩ := set_current_and_record_frame origin lag
    (add_incoming_spikes lag n₁)
  obtain ⟨b1, b2, b3⟩ := add_incoming_spikes_buffers lag n₁
  obtain ⟨a1, a2, a3, a4, a5, a6, a7, a8, a9, a10⟩ := add_incoming_spikes_frame lag n₁
  have hcur : (set_current_and_record origin lag (add_incoming_spikes lag n₁)).B_.I_stim_
      = n.B_.currents_ lag := by
    show (add_incoming_spikes lag n₁).B_.currents_ lag = _
    rw [a8, f8]
  have hcb : ∀ k, (set_current_and_record origin lag
      (add_incoming_spikes lag n₁)).B_.currents_ k = 0 := by
    intro k
    show (RingBuffer.get_value (add_incoming_spikes lag n₁).B_.currents_ lag).2 k = 0
    rw [a8, f8]
    simp [RingBuffer.get_value, bC]
  refine ⟨n₂, calls ++ [_], hm, ?_, hP, by rw [he, List.append_assoc], ?_⟩
  · rw [hn₂]
    refine ⟨?_, ?_, ?_, ?_, ?_, ?_, ?_, ?_, hcb, ?_⟩
    · rw [c3, c1, add_incoming_spikes_V_m, a1, f1, hS, hV]
    · rw [c3, add_incoming_spikes_s_AMPA, hS, hA, f5, bA, add_zero]
    · rw [c3, add_incoming_spikes_s_GABA, hS, hG, f6, bG, add_zero]
    · rw [c3, add_incoming_spikes_s_NMDA, hS, hN, f7, bN, add_zero]
      exact min_eq_right zero_le_one
    · rw [c3, a3, f3, hr]
    · intro k
      rw [c6, b1, f5]
      simp [RingBuffer.get_value, bA]
    · intro k
      rw [c7, b2, f6]
      simp [RingBuffer.get_value, bG]
    · intro k
      rw [c8, b3, f7]
      simp [RingBuffer.get_value, bN]
    · rw [hcur, bC]
  · rw [sends_append, sends_of_isEvolve calls hev]
    simp [sends, Effect.asSend]

/-- A loop over lags from rest with `E_L < V_th`, when the integration loops at rest
finish: the loop returns, at rest, having sent nothing. -/
theorem update_loop_atRest {α σ : Type} [LinearOrderedField α] (K : Kernel α σ)
    (hfix : leavesFixedPoints K) (fuel : Nat) (origin : Int)
    (hfin : ∀ m : iaf_wang_2002 α σ, atRest m → ∃ m₁, integrate K fuel 0 m = .ok m₁)
    (count : Nat) :
    ∀ (lag : Int) (n : iaf_wang_2002 α σ), atRest n → n.P_.E_L < n.P_.V_th →
      ∃ n' new, update_loop K fuel origin count lag n = .ok n' ∧ atRest n' ∧
        n'.P_ = n.P_ ∧ n'.effects = n.effects ++ new ∧ sends new = [] := by
  induction count with
  | zero =>
    intro lag n hn _
    exact ⟨n, [], rfl, hn, rfl, by simp, rfl⟩
  | succ count ih =>
    intro lag n hn hE
    obtain ⟨n₁, hint⟩ := hfin n hn
    obtain ⟨n₂, new₁, h₂, hrest₂, hP₂, he₂, hs₂⟩ :=
      update_lag_atRest K hfix fuel origin lag n n₁ hn hE hint
    obtain ⟨n', new₂, h', hrest', hP', he', hs'⟩ := ih (lag + 1) n₂ hrest₂ (by rw [hP₂]; exact hE)
    refine ⟨n', new₁ ++ new₂, ?_, hrest', hP'.trans hP₂, by rw [he', he₂, List.append_assoc],
      by rw [sends_append, hs₂, hs']; rfl⟩
    rw [update_loop_succ, h₂]
    exact h'

theorem eulerKernel_leavesFixedPoints (status : Int) : leavesFixedPoints (eulerKernel status) := by
  intro e sys t t1 h y hz
  funext i
  simp [eulerKernel, hz]

/-! ## Lemmas on a driven run -/

theorem spikeLags_append {α : Type} (xs ys : List (Effect α)) :
    spikeLags (xs ++ ys) = spikeLags xs ++ spikeLags ys := by
  simp [spikeLags, sends_append]

/-- A loop over `count` lags entered with counter `r <= R = RefractoryCounts_`, when at
every lag of the run the integration loop finishes and, if the neuron is not refractory
there, the integrated voltage is at or above threshold: the loop returns and the lags
with a `send` are `lag + r`, `lag + r + (R + 1)`, ... The condition is on the nodes of
the run: `m` is the node after the first `j` lags. -/
theorem update_loop_driven {α σ : Type} [LinearOrderedField α] (K : Kernel α σ)
    (fuel : Nat) (origin : Int) (R : Nat) (count : Nat) :
    ∀ (lag : Int) (n : iaf_wang_2002 α σ) (r : Nat),
      n.V_.RefractoryCounts_ = R → n.S_.r_ = r → r ≤ R →
      (∀ (j : Nat) (m : iaf_wang_2002 α σ), j < count →
        update_loop K fuel origin j lag n = .ok m →
        ∃ m₁, integrate K fuel 0 m = .ok m₁ ∧ (m.S_.r_ = 0 → m.P_.V_th ≤ m₁.S_.y_ .V_m)) →
      ∃ n' new, update_loop K fuel origin count lag n = .ok n' ∧
        n'.effects = n.effects ++ new ∧
        spikeLags new = List.map (fun k : Nat => lag + r + k * ((R : Int) + 1))
          (List.range ((count + R - r) / (R + 1))) := by
  induction count with
  | zero =>
    intro lag n r _ _ hrR _
    refine ⟨n, [], rfl, by simp, ?_⟩
    have : (0 + R - r) / (R + 1) = 0 := Nat.div_eq_of_lt (by omega)
    rw [this]
    rfl
  | succ count ih =>
    intro lag n r hR hr hrR hdrive
    obtain ⟨n₁, hint, hth⟩ := hdrive 0 n (Nat.succ_pos count) rfl
    obtain ⟨n₂, calls, hm, -, hev, -, hV₂, -, -, hRf, hSp, -⟩ :=
      update_lag_branches K fuel origin lag n n₁ hint
    have hsc : spikeLags calls = [] := by
      simp [spikeLags, sends_of_isEvolve calls hev]
    have hdrive₂ : ∀ (j : Nat) (m : iaf_wang_2002 α σ), j < count →
        update_loop K fuel origin j (lag + 1) n₂ = .ok m →
        ∃ m₁, integrate K fuel 0 m = .ok m₁ ∧ (m.S_.r_ = 0 → m.P_.V_th ≤ m₁.S_.y_ .V_m) := by
      intro j m hj hrun
      refine hdrive (j + 1) m (Nat.succ_lt_succ hj) ?_
      rw [update_loop_succ, hm]
      exact hrun
    rw [update_loop_succ, hm]
    simp only [Outcome.andThen]
    cases r with
    | zero =>
      have hr0 : n.S_.r_ = 0 := by simpa using hr
      obtain ⟨he, hr₂, -⟩ := hSp hr0 (hth hr0)
      obtain ⟨n', new₂, h', he', hs'⟩ := ih (lag + 1) n₂ R (by rw [hV₂]; exact hR)
        (by rw [hr₂, hR]) (le_refl R) hdrive₂
      refine ⟨n', (calls ++ [.send (n.P_.alpha * (1 - decayed_trace K origin lag n))
        (origin + lag + 1) lag, .record_data (origin + lag)]) ++ new₂, h',
        by rw [he', he]; simp only [List.append_assoc], ?_⟩
      have hq : (count + 1 + R - 0) / (R + 1) = (count + R - R) / (R + 1) + 1 := by
        have : count + 1 + R - 0 = (count + R - R) + (R + 1) := by omega
        rw [this, Nat.add_div_right _ (Nat.succ_pos R)]
      rw [spikeLags_append, spikeLags_append, hsc, hs', hq, List.range_succ_eq_map]
      simp only [spikeLags, sends, Effect.asSend, List.filterMap_cons, List.filterMap_nil,
        List.map_cons, List.map_nil, List.nil_append, List.singleton_append, List.map_map,
        Nat.cast_zero, add_zero, zero_mul, List.cons.injEq, true_and]
      apply List.map_congr_left
      intro k _
      simp only [Function.comp, Nat.cast_succ]
      ring
    | succ r' =>
      have hrne : n.S_.r_ ≠ 0 := by rw [hr]; exact_mod_cast Nat.succ_ne_zero r'
      obtain ⟨he, hr₂, -⟩ := hRf hrne
      obtain ⟨n', new₂, h', he', hs'⟩ := ih (lag + 1) n₂ r' (by rw [hV₂]; exact hR)
        (by rw [hr₂, hr]; push_cast; ring) (by omega) hdrive₂
      refine ⟨n', (calls ++ [.record_data (origin + lag)]) ++ new₂, h',
        by rw [he', he]; simp only [List.append_assoc], ?_⟩
      have hq : count + 1 + R - (r' + 1) = count + R - r' := by omega
      rw [spikeLags_append, spikeLags_append, hsc, hs', hq]
      simp only [spikeLags, sends, Effect.asSend, List.filterMap_cons, List.filterMap_nil,
        List.map_nil, List.nil_append]
      apply List.map_congr_left
      intro k _
      push_cast
      ring

/-- The calls logged by an integration loop are evolve calls, whatever its outcome. -/
theorem integrate_calls {α σ : Type} [LinearOrderedField α] (K : Kernel α σ) (fuel : Nat)
    (t : α) (n : iaf_wang_2002 α σ) :
    ∃ calls, (integrate K fuel t n).state.effects = n.effects ++ calls ∧
      ∀ c ∈ calls, c.isEvolve = true := by
  obtain ⟨-, calls, hc, hspec⟩ := integrate_spec K fuel t n
  refine ⟨calls, hc, ?_⟩
  cases hi : integrate K fuel t n with
  | ok m => rw [hi] at hspec; exact isEvolve_of_allSuccess hspec
  | diverge m => rw [hi] at hspec; exact isEvolve_of_allSuccess hspec
  | throw e m =>
    rw [hi] at hspec
    obtain ⟨pre, status, -, -, h3, h4⟩ := hspec
    rw [h3]
    intro c hc
    rcases List.mem_append.1 hc with h | h
    · exact isEvolve_of_allSuccess h4 c h
    · simp only [List.mem_singleton] at h
      rw [h]
      rfl

/-- One lag, whatever its outcome: either nothing is sent and the trace and the archived
spike time are unchanged, or one spike is sent with payload `alpha * (1 - decayed trace)`
and the trace becomes the decayed trace plus the payload. -/
theorem update_lag_trace {α σ : Type} [LinearOrderedField α] (K : Kernel α σ) (fuel : Nat)
    (origin lag : Int) (n : iaf_wang_2002 α σ) :
    ∃ new, (update_lag K fuel origin lag n).state.effects = n.effects ++ new ∧
      (update_lag K fuel origin lag n).state.P_ = n.P_ ∧
      ((sends new = [] ∧
          (update_lag K fuel origin lag n).state.S_.s_NMDA_pre = n.S_.s_NMDA_pre ∧
          (update_lag K fuel origin lag n).state.last_spike_ = n.last_spike_) ∨
        (sends new = [(n.P_.alpha * (1 - decayed_trace K origin lag n), origin + lag + 1, lag)] ∧
          (update_lag K fuel origin lag n).state.S_.s_NMDA_pre =
            decayed_trace K origin lag n + n.P_.alpha * (1 - decayed_trace K origin lag n) ∧
          (update_lag K fuel origin lag n).state.last_spike_ = K.get_ms (origin + lag + 1))) := by
  obtain ⟨calls, hc, hev⟩ := integrate_calls K fuel 0 n
  have hframe := (integrate_spec K fuel 0 n).1
  have hsc := sends_of_isEvolve calls hev
  cases hi : integrate K fuel 0 n with
  | ok n₁ =>
    obtain ⟨n₂, calls', hm, hc', hev', hP, -, -, -, hR, hS, hU⟩ :=
      update_lag_branches K fuel origin lag n n₁ hi
    have hsc' := sends_of_isEvolve calls' hev'
    rw [hm]
    simp only [Outcome.state]
    by_cases hr : n.S_.r_ = 0
    · rcases le_or_lt n.P_.V_th (n₁.S_.y_ .V_m) with hV | hV
      · obtain ⟨he, -, ht, hl, -⟩ := hS hr hV
        refine ⟨calls' ++ [_, _], by rw [he, List.append_assoc], hP, Or.inr ⟨?_, ht, hl⟩⟩
        rw [sends_append, hsc']
        simp [sends, Effect.asSend]
      · obtain ⟨he, -, ht, hl, -⟩ := hU hr hV
        refine ⟨calls' ++ [_], by rw [he, List.append_assoc], hP, Or.inl ⟨?_, ht, hl⟩⟩
        rw [sends_append, hsc']
        simp [sends, Effect.asSend]
    · obtain ⟨he, -, ht, hl, -⟩ := hR hr
      refine ⟨calls' ++ [_], by rw [he, List.append_assoc], hP, Or.inl ⟨?_, ht, hl⟩⟩
      rw [sends_append, hsc']
      simp [sends, Effect.asSend]
  | throw e m =>
    rw [hi] at hc hframe
    simp only [Outcome.state] at hc hframe
    have hu : update_lag K fuel origin lag n = .throw e m := by simp only [update_lag, hi]
    rw [hu]
    exact ⟨calls, hc, hframe.1, Or.inl ⟨hsc, hframe.2.2.2.1, hframe.2.2.2.2.2.2.2.2.2.2.1⟩⟩
  | diverge m =>
    rw [hi] at hc hframe
    simp only [Outcome.state] at hc hframe
    have hu : update_lag K fuel origin lag n = .diverge m := by simp only [update_lag, hi]
    rw [hu]
    exact ⟨calls, hc, hframe.1, Or.inl ⟨hsc, hframe.2.2.2.1, hframe.2.2.2.2.2.2.2.2.2.2.1⟩⟩

/-- The arithmetic of one trace update: with `0 < a <= 1` and decayed trace `d` in
`[0, 1]`, the payload `a (1 - d)` is in `[0, a]` and the new trace in `[a, 1]`. -/
theorem trace_update_bounds {α : Type} [LinearOrderedField α] (a d : α) (ha0 : 0 < a)
    (ha1 : a ≤ 1) (hd0 : 0 ≤ d) (hd1 : d ≤ 1) :
    0 ≤ a * (1 - d) ∧ a * (1 - d) ≤ a ∧ a ≤ d + a * (1 - d) ∧ d + a * (1 - d) ≤ 1 := by
  refine ⟨?_, ?_, ?_, ?_⟩
  · exact mul_nonneg ha0.le (by linarith)
  · nlinarith
  · nlinarith
  · nlinarith

/-- The decayed trace is in `[0, 1]` when the trace is, the spike is not earlier than the
previous one (or the trace is 0) and `exp` maps non-positive numbers into `[0, 1]`. -/
theorem decayed_trace_bounds {α σ : Type} [LinearOrderedField α] (K : Kernel α σ)
    (origin lag : Int) (n : iaf_wang_2002 α σ)
    (hexp : ∀ x, x ≤ 0 → 0 ≤ K.exp x ∧ K.exp x ≤ 1)
    (htau : 0 < n.P_.tau_decay_NMDA) (h0 : 0 ≤ n.S_.s_NMDA_pre) (h1 : n.S_.s_NMDA_pre ≤ 1)
    (ht : n.S_.s_NMDA_pre = 0 ∨ get_spiketime_ms n ≤ K.get_ms (origin + lag + 1)) :
    0 ≤ decayed_trace K origin lag n ∧ decayed_trace K origin lag n ≤ 1 := by
  unfold decayed_trace
  rcases ht with hz | ht
  · rw [hz, zero_mul]
    exact ⟨le_refl 0, zero_le_one⟩
  · have hx : -(K.get_ms (origin + lag + 1) - get_spiketime_ms n) / n.P_.tau_decay_NMDA ≤ 0 :=
      div_nonpos_of_nonpos_of_nonneg (by linarith) htau.le
    obtain ⟨e0, e1⟩ := hexp _ hx
    exact ⟨mul_nonneg h0 e0, by nlinarith⟩

theorem traceInv_mono {α σ : Type} [LinearOrderedField α] (K : Kernel α σ)
    (hmono : ∀ a b : Int, a ≤ b → K.get_ms a ≤ K.get_ms b) (s s' : Int) (hs : s ≤ s')
    (n : iaf_wang_2002 α σ) (h : traceInv K s n) : traceInv K s' n := by
  obtain ⟨h0, h1, h2⟩ := h
  refine ⟨h0, h1, ?_⟩
  rcases h2 with h2 | h2
  · exact Or.inl h2
  · exact Or.inr (h2.trans (hmono s s' hs))

/-- One lag keeps the trace invariant, whatever the outcome of the lag. -/
theorem update_lag_traceInv {α σ : Type} [LinearOrderedField α] (K : Kernel α σ)
    (fuel : Nat) (origin lag : Int) (n : iaf_wang_2002 α σ)
    (hexp : ∀ x, x ≤ 0 → 0 ≤ K.exp x ∧ K.exp x ≤ 1)
    (hmono : ∀ a b : Int, a ≤ b → K.get_ms a ≤ K.get_ms b)
    (ha0 : 0 < n.P_.alpha) (ha1 : n.P_.alpha ≤ 1) (htau : 0 < n.P_.tau_decay_NMDA)
    (h : traceInv K (origin + lag) n) :
    traceInv K (origin + lag + 1) (update_lag K fuel origin lag n).state ∧
      (update_lag K fuel origin lag n).state.P_ = n.P_ := by
  obtain ⟨new, -, hP, hcase⟩ := update_lag_trace K fuel origin lag n
  have h' := traceInv_mono K hmono _ (origin + lag + 1) (by omega) n h
  obtain ⟨h0, h1, h2⟩ := h'
  refine ⟨?_, hP⟩
  rcases hcase with ⟨-, ht, hl⟩ | ⟨-, ht, hl⟩
  · unfold traceInv get_spiketime_ms
    rw [ht, hl]
    exact ⟨h0, h1, h2⟩
  · obtain ⟨d0, d1⟩ := decayed_trace_bounds K origin lag n hexp htau h0 h1 h2
    obtain ⟨-, -, b3, b4⟩ := trace_update_bounds n.P_.alpha _ ha0 ha1 d0 d1
    unfold traceInv get_spiketime_ms
    rw [ht, hl]
    exact ⟨ha0.le.trans b3, b4, Or.inr (le_refl _)⟩

/-- A loop over lags keeps the trace invariant, whatever its outcome. -/
theorem update_loop_traceInv {α σ : Type} [LinearOrderedField α] (K : Kernel α σ)
    (fuel : Nat) (origin : Int)
    (hexp : ∀ x, x ≤ 0 → 0 ≤ K.exp x ∧ K.exp x ≤ 1)
    (hmono : ∀ a b : Int, a ≤ b → K.get_ms a ≤ K.get_ms b) (count : Nat) :
    ∀ (lag : Int) (n : iaf_wang_2002 α σ), 0 < n.P_.alpha → n.P_.alpha ≤ 1 →
      0 < n.P_.tau_decay_NMDA → traceInv K (origin + lag) n →
      traceInv K (origin + lag + count) (update_loop K fuel origin count lag n).state ∧
        (update_loop K fuel origin count lag n).state.P_ = n.P_ := by
  induction count with
  | zero =>
    intro lag n _ _ _ h
    simpa [update_loop, Outcome.state] using h
  | succ count ih =>
    intro lag n ha0 ha1 htau h
    obtain ⟨hstep, hP⟩ := update_lag_traceInv K fuel origin lag n hexp hmono ha0 ha1 htau h
    rw [update_loop_succ]
    have hle : origin + lag + 1 ≤ origin + lag + ((count + 1 : Nat) : Int) := by
      push_cast
      omega
    cases hl : update_lag K fuel origin lag n with
    | ok m =>
      rw [hl] at hstep hP
      simp only [Outcome.state] at hstep hP
      simp only [Outcome.andThen]
      obtain ⟨h₂, hP₂⟩ := ih (lag + 1) m (by rw [hP]; exact ha0) (by rw [hP]; exact ha1)
        (by rw [hP]; exact htau) (by rw [← add_assoc]; exact hstep)
      refine ⟨?_, hP₂.trans hP⟩
      have : origin + (lag + 1) + (count : Int) = origin + lag + ((count + 1 : Nat) : Int) := by
        push_cast
        ring
      rw [← this]
      exact h₂
    | throw e m =>
      rw [hl] at hstep hP
      exact ⟨traceInv_mono K hmono _ _ hle _ hstep, hP⟩
    | diverge m =>
      rw [hl] at hstep hP
      exact ⟨traceInv_mono K hmono _ _ hle _ hstep, hP⟩

/-- On a node of the constant-current run the Euler kernel integrates the lag in one
call, from `V = -60` to `V = -54.05`, above the threshold `-55`, with the gating
variables staying 0. -/
theorem currentInv_integrate (lag : Int) (m : iaf_wang_2002 ℚ Unit) (h : currentInv lag m) :
    integrate (eulerKernel 0) 1 0 m = .ok (evolve_store m (evolve_call (eulerKernel 0) 0 m)) ∧
      (evolve_store m (evolve_call (eulerKernel 0) 0 m)).S_.y_ .V_m = -1081 / 20 ∧
      (evolve_store m (evolve_call (eulerKernel 0) 0 m)).S_.y_ .s_AMPA = 0 ∧
      (evolve_store m (evolve_call (eulerKernel 0) 0 m)).S_.y_ .s_GABA = 0 ∧
      (evolve_store m (evolve_call (eulerKernel 0) 0 m)).S_.y_ .s_NMDA = 0 := by
  obtain ⟨hP, -, hst, hI, hV, hA, hG, hN, -⟩ := h
  refine ⟨integrate_one_ok (eulerKernel 0) m (by rw [hst]; norm_num) rfl rfl, ?_, ?_, ?_, ?_⟩
  · simp only [evolve_store, evolve_call, eulerKernel, iaf_wang_2002_dynamics, hP, hst, hI,
      hV, hA, hG, hN, Parameters_.ctor, Function.update, reduceCtorEq, if_false, if_true,
      eq_self_iff_true, dite_eq_ite]
    norm_num
  · simp only [evolve_store, evolve_call, eulerKernel, iaf_wang_2002_dynamics, hP, hst, hI,
      hV, hA, hG, hN, Parameters_.ctor, Function.update, reduceCtorEq, if_false, if_true,
      eq_self_iff_true, dite_eq_ite]
    norm_num
  · simp only [evolve_store, evolve_call, eulerKernel, iaf_wang_2002_dynamics, hP, hst, hI,
      hV, hA, hG, hN, Parameters_.ctor, Function.update, reduceCtorEq, if_false, if_true,
      eq_self_iff_true, dite_eq_ite]
    norm_num
  · simp only [evolve_store, evolve_call, eulerKernel, iaf_wang_2002_dynamics, hP, hst, hI,
      hV, hA, hG, hN, Parameters_.ctor, Function.update, reduceCtorEq, if_false, if_true,
      eq_self_iff_true, dite_eq_ite]
    norm_num

/-- One lag of the constant-current run leads to a node of the run again. -/
theorem currentInv_update_lag (origin lag : Int) (m m₂ : iaf_wang_2002 ℚ Unit)
    (h : currentInv lag m) (hm : update_lag (eulerKernel 0) 1 origin lag m = .ok m₂) :
    currentInv (lag + 1) m₂ := by
  obtain ⟨hint, eV, eA, eG, eN⟩ := currentInv_integrate lag m h
  obtain ⟨hP, hVv, hst, hI, hV, hA, hG, hN, bA, bG, bN, bC⟩ := h
  obtain ⟨f1, f2, f3, f4, f5, f6, f7, f8, f9, f10, f11, f12⟩ :=
    integrate_frame_of_ok (eulerKernel 0) 1 0 m _ hint
  obtain ⟨n₂, calls, hm', -, -, hP₂, hV₂, hst₂, -, hRf, hSp, -⟩ :=
    update_lag_branches (eulerKernel 0) 1 origin lag m _ hint
  have hex := update_lag_of_integrate (eulerKernel 0) 1 origin lag m _ hint
  rw [hm] at hm' hex
  simp only [Outcome.ok.injEq] at hm' hex
  subst hm'
  have hVreset : m₂.S_.y_ .V_m = -60 := by
    by_cases hr : m.S_.r_ = 0
    · have hth : m.P_.V_th ≤ (evolve_store m (evolve_call (eulerKernel 0) 0 m)).S_.y_ .V_m := by
        rw [eV, hP]
        norm_num [Parameters_.ctor]
      rw [(hSp hr hth).2.2.2.2, hP]
      norm_num [Parameters_.ctor]
    · rw [(hRf hr).2.2.2.2, hP]
      norm_num [Parameters_.ctor]
  obtain ⟨c1, c2, c3, c4, c5, c6, c7, c8, c9, c10⟩ := set_current_and_record_frame origin lag
    (threshold_step (eulerKernel 0) origin lag (add_incoming_spikes lag
      (evolve_store m (evolve_call (eulerKernel 0) 0 m))))
  obtain ⟨t1, t2, t3, t4⟩ := threshold_step_frame (eulerKernel 0) origin lag
    (add_incoming_spikes lag (evolve_store m (evolve_call (eulerKernel 0) 0 m)))
  obtain ⟨b1, b2, b3⟩ := add_incoming_spikes_buffers lag
    (evolve_store m (evolve_call (eulerKernel 0) 0 m))
  obtain ⟨a1, a2, a3, a4, a5, a6, a7, a8, a9, a10⟩ := add_incoming_spikes_frame lag
    (evolve_store m (evolve_call (eulerKernel 0) 0 m))
  have hcur : m₂.B_.I_stim_ = m.B_.currents_ lag := by
    rw [hex]
    show (threshold_step (eulerKernel 0) origin lag (add_incoming_spikes lag
      (evolve_store m (evolve_call (eulerKernel 0) 0 m)))).B_.currents_ lag = _
    rw [t3, a8, f8]
  have hcb : ∀ k, lag + 1 ≤ k → m₂.B_.currents_ k = 30000 := by
    intro k hk
    rw [hex]
    show (RingBuffer.get_value (threshold_step (eulerKernel 0) origin lag
      (add_incoming_spikes lag (evolve_store m (evolve_call (eulerKernel 0) 0 m)))).B_.currents_
      lag).2 k = 30000
    rw [t3, a8, f8]
    have hne : k ≠ lag := by omega
    simp only [RingBuffer.get_value, if_neg hne]
    exact bC k (by omega)
  refine ⟨hP₂.trans hP, hV₂.trans hVv, hst₂.trans hst, by rw [hcur]; exact bC lag (le_refl _),
    hVreset, ?_, ?_, ?_, ?_, ?_, ?_, hcb⟩
  · rw [hex, c3, threshold_step_gating _ _ _ _ _ (by decide), add_incoming_spikes_s_AMPA, eA,
      f5, bA, add_zero]
  · rw [hex, c3, threshold_step_gating _ _ _ _ _ (by decide), add_incoming_spikes_s_GABA, eG,
      f6, bG, add_zero]
  · rw [hex, c3, threshold_step_gating _ _ _ _ _ (by decide), add_incoming_spikes_s_NMDA, eN,
      f7, bN, add_zero]
    exact min_eq_right zero_le_one
  · intro k
    rw [hex, c6, t3, b1, f5]
    simp [RingBuffer.get_value, bA]
  · intro k
    rw [hex, c7, t3, b2, f6]
    simp [RingBuffer.get_value, bG]
  · intro k
    rw [hex, c8, t3, b3, f7]
    simp [RingBuffer.get_value, bN]

/-- Every node of the constant-current run is a node of the run. -/
theorem currentInv_update_loop (origin : Int) (j : Nat) :
    ∀ (lag : Int) (n m : iaf_wang_2002 ℚ Unit), currentInv lag n →
      update_loop (eulerKernel 0) 1 origin j lag n = .ok m → currentInv (lag + j) m := by
  induction j with
  | zero =>
    intro lag n m h hrun
    simp only [update_loop, Outcome.ok.injEq] at hrun
    subst hrun
    simpa using h
  | succ j ih =>
    intro lag n m h hrun
    rw [update_loop_succ] at hrun
    cases hl : update_lag (eulerKernel 0) 1 origin lag n with
    | ok n₂ =>
      rw [hl] at hrun
      have h₂ := currentInv_update_lag origin lag n n₂ h hl
      have := ih (lag + 1) n₂ m h₂ hrun
      have hc : lag + 1 + (j : Int) = lag + ((j + 1 : Nat) : Int) := by push_cast; ring
      rw [← hc]
      exact this
    | throw e x => rw [hl] at hrun; cases hrun
    | diverge x => rw [hl] at hrun; cases hrun

/-- The constant-current run meets the condition of the driven run: at each of its lags
the integration loop finishes with the voltage at or above threshold. -/
theorem currentInv_drive (origin lag : Int) (n : iaf_wang_2002 ℚ Unit) (h : currentInv lag n)
    (j : Nat) (m : iaf_wang_2002 ℚ Unit)
    (hrun : update_loop (eulerKernel 0) 1 origin j lag n = .ok m) :
    ∃ m₁, integrate (eulerKernel 0) 1 0 m = .ok m₁ ∧
      (m.S_.r_ = 0 → m.P_.V_th ≤ m₁.S_.y_ .V_m) := by
  have hm := currentInv_update_loop origin j lag n m h hrun
  obtain ⟨hint, eV, -⟩ := currentInv_integrate _ m hm
  refine ⟨_, hint, fun _ => ?_⟩
  rw [eV, hm.1]
  norm_num [Parameters_.ctor]

theorem currentNode_inv (r lag : Int) : currentInv lag (currentNode r) := by
  simp [currentInv, currentNode, testNode]

/-! ## Theorems -/

/-- C1: `Parameters_::set` throws `BadProperty` exactly when the values after merging
the dictionary into the prior parameters have `V_reset >= V_th`, `C_m <= 0`, `t_ref < 0`,
a time constant `<= 0`, `alpha <= 0`, `conc_Mg2 <= 0` or `gsl_error_tol <= 0`, and it
returns normally exactly when none of these holds. -/
theorem C1_set_fails_iff_invariant_violated {α : Type} [LinearOrderedField α]
    (d : DictionaryDatum α) (p : Parameters_ α) :
    ((∃ msg, Parameters_.set d p = .throw (.BadProperty msg) (merged d p)) ↔
      ((merged d p).V_reset ≥ (merged d p).V_th ∨ (merged d p).C_m ≤ 0 ∨
        (merged d p).t_ref < 0 ∨ (merged d p).tau_AMPA ≤ 0 ∨ (merged d p).tau_GABA ≤ 0 ∨
        (merged d p).tau_rise_NMDA ≤ 0 ∨ (merged d p).tau_decay_NMDA ≤ 0 ∨
        (merged d p).alpha ≤ 0 ∨ (merged d p).conc_Mg2 ≤ 0 ∨
        (merged d p).gsl_error_tol ≤ 0)) ∧
    (Parameters_.set d p = .ok (merged d p) ↔
      ¬ ((merged d p).V_reset ≥ (merged d p).V_th ∨ (merged d p).C_m ≤ 0 ∨
        (merged d p).t_ref < 0 ∨ (merged d p).tau_AMPA ≤ 0 ∨ (merged d p).tau_GABA ≤ 0 ∨
        (merged d p).tau_rise_NMDA ≤ 0 ∨ (merged d p).tau_decay_NMDA ≤ 0 ∨
        (merged d p).alpha ≤ 0 ∨ (merged d p).conc_Mg2 ≤ 0 ∨
        (merged d p).gsl_error_tol ≤ 0)) := by
  have hv : (merged d p).valid ↔
      ¬ ((merged d p).V_reset ≥ (merged d p).V_th ∨ (merged d p).C_m ≤ 0 ∨
        (merged d p).t_ref < 0 ∨ (merged d p).tau_AMPA ≤ 0 ∨ (merged d p).tau_GABA ≤ 0 ∨
        (merged d p).tau_rise_NMDA ≤ 0 ∨ (merged d p).tau_decay_NMDA ≤ 0 ∨
        (merged d p).alpha ≤ 0 ∨ (merged d p).conc_Mg2 ≤ 0 ∨
        (merged d p).gsl_error_tol ≤ 0) := by
    unfold Parameters_.valid
    simp only [not_or, not_le, not_lt, ge_iff_le]
  have hok := set_eq_ok_iff d p
  refine ⟨?_, hok.trans hv⟩
  constructor
  · rintro ⟨msg, hthrow⟩
    by_contra hnot
    have := (hok.trans hv).2 hnot
    rw [this] at hthrow
    cases hthrow
  · intro hbad
    rcases set_cases d p with h | h
    · exact absurd hbad ((hok.trans hv).1 h)
    · exact h

theorem get_holds {α : Type} (q : Parameters_ α) (d : DictionaryDatum α) :
    holds (q.get d) q := by
  simp [holds, Parameters_.get, def_, names.E_L, names.E_ex, names.E_in, names.V_th,
    names.V_reset, names.C_m, names.g_L, names.t_ref, names.tau_AMPA, names.tau_GABA,
    names.tau_rise_NMDA, names.tau_decay_NMDA, names.alpha, names.conc_Mg2,
    names.gsl_error_tol]

theorem merged_of_holds {α : Type} (d : DictionaryDatum α) (q p : Parameters_ α)
    (h : holds d q) : merged d p = q := by
  obtain ⟨h1, h2, h3, h4, h5, h6, h7, h8, h9, h10, h11, h12, h13, h14, h15⟩ := h
  cases q
  simp_all [merged]

/-- C2, counterexample: on the default parameters, the dictionary with the single entry
`C_m = -1` makes `Parameters_::set` throw, and the object then has `C_m = -1`, not the
prior `500`. -/
theorem C2_counterexample :
    (Parameters_.set (def_ emptyDict names.C_m (-1)) (Parameters_.ctor (2 : ℚ))).throws
        = true ∧
      (Parameters_.set (def_ emptyDict names.C_m (-1))
        (Parameters_.ctor (2 : ℚ))).state.C_m = -1 ∧
      (Parameters_.ctor (2 : ℚ)).C_m = 500 := by
  refine ⟨?_, ?_, ?_⟩
  · simp [Parameters_.set, Parameters_.assign, updateValueParam, def_, emptyDict,
      Parameters_.ctor, Outcome.throws, names.C_m, names.V_th, names.V_reset]
    norm_num
  · simp [Parameters_.set, Parameters_.assign, updateValueParam, def_, emptyDict,
      Parameters_.ctor, Outcome.state, names.C_m, names.V_th, names.V_reset]
    norm_num
  · norm_num [Parameters_.ctor]

/-- C2, amended: when `Parameters_::set` throws, the object it was called on holds the
merged values: every field named in the dictionary has the value of the dictionary, and
every field the dictionary does not name has its prior value. -/
theorem C2_failed_set_leaves_merged_values {α : Type} [LinearOrderedField α]
    (d : DictionaryDatum α) (p m : Parameters_ α) (e : KernelException)
    (h : Parameters_.set d p = .throw e m) : m = merged d p := by
  rcases set_cases d p with hok | ⟨msg, hthrow⟩
  · rw [hok] at h
    cases h
  · rw [hthrow] at h
    cases h
    rfl

theorem C2_failed_set_leaves_merged_values_witness :
    Parameters_.set (def_ emptyDict names.alpha (0 : ℚ)) (Parameters_.ctor 2) =
        .throw (.BadProperty "alpha > 0 required.") { Parameters_.ctor 2 with alpha := 0 } ∧
      ({ Parameters_.ctor 2 with alpha := 0 } : Parameters_ ℚ) =
        merged (def_ emptyDict names.alpha (0 : ℚ)) (Parameters_.ctor 2) := by
  have h : Parameters_.set (def_ emptyDict names.alpha (0 : ℚ)) (Parameters_.ctor 2) =
      .throw (.BadProperty "alpha > 0 required.") { Parameters_.ctor 2 with alpha := 0 } := by
    simp [Parameters_.set, Parameters_.assign, updateValueParam, def_, emptyDict,
      Parameters_.ctor, names.C_m, names.V_th, names.V_reset, names.alpha, names.E_L,
      names.E_ex, names.E_in, names.g_L, names.t_ref, names.tau_AMPA, names.tau_GABA,
      names.tau_rise_NMDA, names.tau_decay_NMDA, names.conc_Mg2, names.gsl_error_tol]
    norm_num
  exact ⟨h, C2_failed_set_leaves_merged_values _ _ _ _ h⟩

/-- C3: for a valid parameter set `q` and a dictionary `d` holding its fifteen fields,
`Parameters_::set` with `d` succeeds on any prior parameters `p`, the object then equals
`q`, and `Parameters_::get` on it writes a dictionary that holds the fifteen fields of
`q` again; the dictionary written by `get` on `q` is such a `d`. -/
theorem C3_set_get_roundtrip {α : Type} [LinearOrderedField α]
    (q p : Parameters_ α) (d d₁ : DictionaryDatum α) (hq : q.valid) (hd : holds d q) :
    Parameters_.set d p = .ok q ∧ holds ((Parameters_.set d p).state.get d₁) q ∧
      holds (q.get d₁) q ∧ Parameters_.set (q.get d₁) p = .ok q := by
  have key : ∀ d' : DictionaryDatum α, holds d' q → Parameters_.set d' p = .ok q := by
    intro d' hd'
    have hm := merged_of_holds d' q p hd'
    have := (set_eq_ok_iff d' p).2 (by rw [hm]; exact hq)
    rw [hm] at this
    exact this
  have h1 := key d hd
  refine ⟨h1, ?_, get_holds q d₁, key _ (get_holds q d₁)⟩
  rw [h1]
  exact get_holds q d₁

theorem C3_set_get_roundtrip_witness :
    (Parameters_.ctor (2 : ℚ)).valid ∧
      Parameters_.set ((Parameters_.ctor (2 : ℚ)).get emptyDict)
        { Parameters_.ctor (7 : ℚ) with C_m := 1, E_L := 3 } = .ok (Parameters_.ctor 2) := by
  have hv : (Parameters_.ctor (2 : ℚ)).valid := by
    norm_num [Parameters_.valid, Parameters_.ctor]
  exact ⟨hv, (C3_set_get_roundtrip (Parameters_.ctor 2)
    { Parameters_.ctor (7 : ℚ) with C_m := 1, E_L := 3 }
    ((Parameters_.ctor (2 : ℚ)).get emptyDict) emptyDict hv (get_holds _ _)).1⟩

/-- C4: for every state vector `y`, node (parameters and injected current `I_stim_`) and
output array `f`, the dynamics function stores
`dV/dt = (-g_L*(V - E_L) - I_syn)/C_m`, with
`I_syn = (V - E_ex)*s_AMPA + (V - E_in)*s_GABA
  + (V - E_ex)/(1 + conc_Mg2*exp(-0.062*V)/3.57)*s_NMDA - I_stim`,
in component `V_m`, `-s_AMPA/tau_AMPA` in component `s_AMPA`, `-s_GABA/tau_GABA` in
component `s_GABA`, `-s_NMDA/tau_decay_NMDA` in component `s_NMDA`, and returns
`GSL_SUCCESS`. -/
theorem C4_dynamics_formula {α σ : Type} [LinearOrderedField α] (K : Kernel α σ)
    (node : iaf_wang_2002 α σ) (t : α) (y f : StateVec α) :
    (iaf_wang_2002_dynamics K node t y f).2 .V_m =
        (-node.P_.g_L * (y .V_m - node.P_.E_L)
          - ((y .V_m - node.P_.E_ex) * y .s_AMPA + (y .V_m - node.P_.E_in) * y .s_GABA
            + (y .V_m - node.P_.E_ex)
              / (1 + node.P_.conc_Mg2 * K.exp (-0.062 * y .V_m) / 3.57) * y .s_NMDA
            - node.B_.I_stim_)) / node.P_.C_m ∧
      (iaf_wang_2002_dynamics K node t y f).2 .s_AMPA = -y .s_AMPA / node.P_.tau_AMPA ∧
      (iaf_wang_2002_dynamics K node t y f).2 .s_GABA = -y .s_GABA / node.P_.tau_GABA ∧
      (iaf_wang_2002_dynamics K node t y f).2 .s_NMDA = -y .s_NMDA / node.P_.tau_decay_NMDA ∧
      (iaf_wang_2002_dynamics K node t y f).1 = GSL_SUCCESS := by
  simp [iaf_wang_2002_dynamics, Function.update]

/-- C5: in a lag of `update` where, after integration and event injection, the refractory
counter is 0 and `V >= V_th`, the lag ends with `V = V_reset` and the counter equal to
`RefractoryCounts_`; the NMDA presynaptic trace is the old trace times
`exp(-(t_spike - t_lastspike)/tau_decay_NMDA)`, with `t_spike` the time of step
`origin + lag + 1`, plus `delta = alpha*(1 - decayed trace)`; and after the evolve calls
the lag makes exactly one `send`, stamped `origin + lag + 1` with offset `delta`,
followed by the recorder call (the log of the lag is: evolve calls, the `send`, the
recorder call). -/
theorem C5_spike_on_threshold {α σ : Type} [LinearOrderedField α] (K : Kernel α σ)
    (fuel : Nat) (origin lag : Int) (n n₁ : iaf_wang_2002 α σ)
    (hint : integrate K fuel 0 n = .ok n₁)
    (hr : (add_incoming_spikes lag n₁).S_.r_ = 0)
    (hV : (add_incoming_spikes lag n₁).S_.y_ .V_m ≥ (add_incoming_spikes lag n₁).P_.V_th) :
    ∃ n₂, update_lag K fuel origin lag n = .ok n₂ ∧
      n₂.S_.y_ .V_m = n.P_.V_reset ∧
      n₂.S_.r_ = n.V_.RefractoryCounts_ ∧
      n₂.S_.s_NMDA_pre =
        n.S_.s_NMDA_pre * K.exp (-(K.get_ms (origin + lag + 1) - get_spiketime_ms n)
            / n.P_.tau_decay_NMDA)
          + n.P_.alpha * (1 - n.S_.s_NMDA_pre
            * K.exp (-(K.get_ms (origin + lag + 1) - get_spiketime_ms n)
              / n.P_.tau_decay_NMDA)) ∧
      get_spiketime_ms n₂ = K.get_ms (origin + lag + 1) ∧
      (∃ calls, n₁.effects = n.effects ++ calls ∧ ∀ c ∈ calls, c.isEvolve = true) ∧
      n₂.effects = n₁.effects ++
        [.send (n.P_.alpha * (1 - n.S_.s_NMDA_pre
            * K.exp (-(K.get_ms (origin + lag + 1) - get_spiketime_ms n)
              / n.P_.tau_decay_NMDA))) (origin + lag + 1) lag,
          .record_data (origin + lag)] := by
  obtain ⟨f1, f2, f3, f4, f5, f6, f7, f8, f9, f10, f11, f12⟩ :=
    integrate_frame_of_ok K fuel 0 n n₁ hint
  have hcalls : ∃ calls, n₁.effects = n.effects ++ calls ∧ ∀ c ∈ calls, c.isEvolve = true := by
    obtain ⟨-, calls, hc, hspec⟩ := integrate_spec K fuel 0 n
    rw [hint] at hc hspec
    exact ⟨calls, hc, isEvolve_of_allSuccess hspec⟩
  refine ⟨_, update_lag_of_integrate K fuel origin lag n n₁ hint, ?_⟩
  suffices hs : ∀ (P Q R S T : Prop), P ∧ Q ∧ R ∧ S ∧ T → P ∧ Q ∧ R ∧ S ∧
      (∃ calls, n₁.effects = n.effects ++ calls ∧ ∀ c ∈ calls, c.isEvolve = true) ∧ T by
    apply hs
    obtain ⟨c1, c2, c3, c4, c5, c6, c7, c8, c9, c10⟩ := set_current_and_record_frame origin
      lag (threshold_step K origin lag (add_incoming_spikes lag n₁))
    obtain ⟨a1, a2, a3, a4, a5, a6, a7, a8, a9, a10⟩ := add_incoming_spikes_frame lag n₁
    rw [c3, c10]
    simp only [get_spiketime_ms, c4]
    rw [threshold_step_spike K origin lag _ hr hV]
    simp only [a1, a2, a4, a5, a6, f1, f2, f4, f11, Function.update_same, List.append_assoc,
      List.singleton_append, and_self]
  exact fun P Q R S T ⟨a, b, c, d, e⟩ => ⟨a, b, c, d, hcalls, e⟩

theorem C5_spike_on_threshold_witness :
    ∃ n₂, update_lag (eulerKernel 0) 1 0 3 (testNode (-50) 0 (1 / 2)) = .ok n₂ ∧
      n₂.S_.y_ .V_m = -60 ∧ n₂.S_.r_ = 20 ∧
      n₂.effects = [.evolve_apply 0, .send (506951 / 2000000) 4 3, .record_data 3] := by
  obtain ⟨n₂, h, hV, hr, -, -, -, he⟩ := C5_spike_on_threshold (eulerKernel 0) 1 0 3
    (testNode (-50) 0 (1 / 2)) _ (integrate_euler_ok _ _ _) rfl
    (by
      rw [add_incoming_spikes_V_m]
      norm_num [evolve_store, evolve_call, eulerKernel, testNode,
        iaf_wang_2002_dynamics, Parameters_.ctor, Function.update, add_incoming_spikes]
      simp
      norm_num)
  refine ⟨n₂, h, ?_, ?_, ?_⟩
  · rw [hV]; norm_num [testNode, Parameters_.ctor]
  · rw [hr]; rfl
  · rw [he]
    norm_num [evolve_store, evolve_call, eulerKernel, testNode, get_spiketime_ms,
      Parameters_.ctor]

/-- C6: in a lag of `update` entered with a positive refractory counter, whatever the
integrator produced, the lag ends with `V = V_reset` and the counter one smaller; and
from counter `k > 0`, after `j` lags (`1 <= j <= k`) of `update` the voltage is `V_reset`
and the counter is `k - j`, so it is 0 after exactly `k` lags; these `j` lags do return
when every integration loop does. -/
theorem C6_refractory_countdown {α σ : Type} [LinearOrderedField α] (K : Kernel α σ)
    (fuel : Nat) (origin from_ : Int) (n : iaf_wang_2002 α σ) (k : Nat)
    (hk : n.S_.r_ = k) (hpos : 0 < k) :
    (∀ lag n₁, integrate K fuel 0 n = .ok n₁ →
      ∃ n₂, update_lag K fuel origin lag n = .ok n₂ ∧
        n₂.S_.y_ .V_m = n.P_.V_reset ∧ n₂.S_.r_ = n.S_.r_ - 1) ∧
    (∀ j : Nat, 1 ≤ j → j ≤ k →
      (∀ nj, update K fuel origin from_ (from_ + j) n = .ok nj →
        nj.S_.y_ .V_m = n.P_.V_reset ∧ nj.S_.r_ = (k : Int) - j) ∧
      ((∀ m : iaf_wang_2002 α σ, ∃ m', integrate K fuel 0 m = .ok m') →
        ∃ nj, update K fuel origin from_ (from_ + j) n = .ok nj)) := by
  constructor
  · intro lag n₁ hint
    have hr : n.S_.r_ ≠ 0 := by rw [hk]; exact_mod_cast hpos.ne'
    obtain ⟨n₂, h, -, hV, hr₂⟩ := update_lag_refractory K fuel origin lag n n₁ hint hr
    exact ⟨n₂, h, hV, hr₂⟩
  · have key : ∀ j : Nat, j ≤ k →
        (∀ nj, update_loop K fuel origin j from_ n = .ok nj →
          nj.P_ = n.P_ ∧ nj.S_.r_ = (k : Int) - j ∧ (1 ≤ j → nj.S_.y_ .V_m = n.P_.V_reset)) ∧
        ((∀ m : iaf_wang_2002 α σ, ∃ m', integrate K fuel 0 m = .ok m') →
          ∃ nj, update_loop K fuel origin j from_ n = .ok nj) := by
      intro j
      induction j with
      | zero =>
        intro _
        refine ⟨?_, fun _ => ⟨n, rfl⟩⟩
        intro nj h
        simp only [update_loop, Outcome.ok.injEq] at h
        subst h
        exact ⟨rfl, by simpa using hk, fun h => absurd h (by decide)⟩
      | succ j ih =>
        intro hj
        obtain ⟨ih₁, ih₂⟩ := ih (Nat.le_of_succ_le hj)
        have hstep : ∀ m, update_loop K fuel origin j from_ n = .ok m →
            update_loop K fuel origin (j + 1) from_ n = update_lag K fuel origin (from_ + j) m := by
          intro m hm
          rw [update_loop_add, hm, Outcome.andThen, update_loop_one]
        constructor
        · intro nj h
          cases hm : update_loop K fuel origin j from_ n with
          | ok m =>
            rw [hstep m hm] at h
            obtain ⟨hP, hr, -⟩ := ih₁ m hm
            obtain ⟨m₁, hint, -⟩ := update_lag_eq_ok K fuel origin _ m nj h
            have hr0 : m.S_.r_ ≠ 0 := by rw [hr]; omega
            obtain ⟨n₂, h₂, hP₂, hV₂, hr₂⟩ :=
              update_lag_refractory K fuel origin (from_ + j) m m₁ hint hr0
            rw [h₂] at h
            simp only [Outcome.ok.injEq] at h
            subst h
            refine ⟨hP₂.trans hP, ?_, fun _ => by rw [hV₂, hP]⟩
            rw [hr₂, hr]
            push_cast
            ring
          | throw e m =>
            rw [update_loop_add, hm] at h
            cases h
          | diverge m =>
            rw [update_loop_add, hm] at h
            cases h
        · intro hall
          obtain ⟨m, hm⟩ := ih₂ hall
          obtain ⟨hP, hr, -⟩ := ih₁ m hm
          obtain ⟨m₁, hint⟩ := hall m
          have hr0 : m.S_.r_ ≠ 0 := by rw [hr]; omega
          obtain ⟨n₂, h₂, -⟩ := update_lag_refractory K fuel origin (from_ + j) m m₁ hint hr0
          exact ⟨n₂, by rw [hstep m hm, h₂]⟩
    intro j hj1 hjk
    obtain ⟨k₁, k₂⟩ := key j hjk
    rw [update_eq_loop]
    refine ⟨fun nj h => ?_, k₂⟩
    obtain ⟨-, hr, hV⟩ := k₁ nj h
    exact ⟨hV hj1, hr⟩

theorem C6_refractory_countdown_witness :
    (testNode (-50) 2 (1 / 2)).S_.r_ = (2 : Nat) ∧
      ∃ nj, update (eulerKernel 0) 1 0 5 (5 + (2 : Nat)) (testNode (-50) 2 (1 / 2)) = .ok nj ∧
        nj.S_.y_ .V_m = -60 ∧ nj.S_.r_ = 0 := by
  have h := (C6_refractory_countdown (eulerKernel 0) 1 0 5 (testNode (-50) 2 (1 / 2)) 2 rfl
    (by decide)).2 2 (by decide) (le_refl 2)
  obtain ⟨nj, hnj⟩ := h.2 integrate_euler_total
  obtain ⟨hV, hr⟩ := h.1 nj hnj
  refine ⟨rfl, nj, hnj, ?_, ?_⟩
  · rw [hV]; norm_num [testNode, Parameters_.ctor]
  · rw [hr]; norm_num

/-- C7: after every lag of `update`, for every integrator output and every content of
the NMDA slot, `s_NMDA` equals `min(1, integrated s_NMDA + drained amount)` and is at
most 1; the transition (refractory, spiking or sub-threshold alike) already sees the
clamped value, since the clamp precedes it and the transition leaves `s_NMDA` alone. -/
theorem C7_s_NMDA_clamped {α σ : Type} [LinearOrderedField α] (K : Kernel α σ)
    (fuel : Nat) (origin lag : Int) (n n₁ : iaf_wang_2002 α σ)
    (hint : integrate K fuel 0 n = .ok n₁) :
    ∃ n₂, update_lag K fuel origin lag n = .ok n₂ ∧
      n₂.S_.y_ .s_NMDA =
        min 1 (n₁.S_.y_ .s_NMDA + (RingBuffer.get_value n.B_.spike_NMDA lag).1) ∧
      n₂.S_.y_ .s_NMDA ≤ 1 ∧
      (add_incoming_spikes lag n₁).S_.y_ .s_NMDA = n₂.S_.y_ .s_NMDA := by
  obtain ⟨f1, f2, f3, f4, f5, f6, f7, f8, f9, f10, f11, f12⟩ :=
    integrate_frame_of_ok K fuel 0 n n₁ hint
  refine ⟨_, update_lag_of_integrate K fuel origin lag n n₁ hint, ?_⟩
  obtain ⟨c1, c2, c3, c4, c5, c6, c7, c8, c9, c10⟩ := set_current_and_record_frame origin lag
    (threshold_step K origin lag (add_incoming_spikes lag n₁))
  rw [c3, threshold_step_gating K origin lag _ _ (by decide), add_incoming_spikes_s_NMDA, f7]
  exact ⟨rfl, min_le_left _ _, rfl⟩

theorem C7_s_NMDA_clamped_witness :
    ∃ n₂, update_lag (eulerKernel 0) 1 0 3 (testNodeSpiked (-50) 0 (1 / 2)) = .ok n₂ ∧
      n₂.S_.y_ .s_NMDA = 1 := by
  obtain ⟨n₂, h, hs, -, -⟩ := C7_s_NMDA_clamped (eulerKernel 0) 1 0 3
    (testNodeSpiked (-50) 0 (1 / 2))
    (evolve_store (testNodeSpiked (-50) 0 (1 / 2))
      (evolve_call (eulerKernel 0) 0 (testNodeSpiked (-50) 0 (1 / 2))))
    (by simp [integrate, evolve_call, evolve_store, eulerKernel, testNodeSpiked, testNode,
      GSL_SUCCESS])
  refine ⟨n₂, h, ?_⟩
  rw [hs]
  norm_num [evolve_store, evolve_call, eulerKernel, testNodeSpiked, testNode,
    iaf_wang_2002_dynamics, Parameters_.ctor, Function.update, RingBuffer.get_value,
    RingBuffer.add_value]
  simp
  norm_num

/-- C8: `handle` of a spike event (weight `w`, multiplicity `m`, receptor port `p`, offset
`o`, delivery lag `k`) and of a current event (weight `w`, amplitude `c`, delivery lag `k`)
with positive delay changes nothing but ring-buffer slots: for `w > 0` and `p = 0` slot `k`
of AMPA gains `w*m` and slot `k` of NMDA gains `w*m*o`; for `w > 0` and `p != 0` only
slot `k` of AMPA gains `w*m`; for `w < 0` only slot `k` of GABA gains `-w*m`; a current
event makes only slot `k` of the current buffer gain `w*c`. -/
theorem C8_handle_routes_events {α σ : Type} [LinearOrderedField α]
    (e : SpikeEvent α) (c : CurrentEvent α) (n : iaf_wang_2002 α σ)
    (he : e.delay_steps > 0) (hc : c.delay_steps > 0) :
    (∃ n', handle_SpikeEvent e n = some n' ∧ handle_frame n n' ∧
      n'.B_.currents_ = n.B_.currents_ ∧
      (e.weight > 0 → e.rport = 0 →
        slotGains n.B_.spike_AMPA n'.B_.spike_AMPA e.rel_delivery_steps
          (e.weight * e.multiplicity) ∧
        slotGains n.B_.spike_NMDA n'.B_.spike_NMDA e.rel_delivery_steps
          (e.weight * e.multiplicity * e.offset) ∧
        n'.B_.spike_GABA = n.B_.spike_GABA) ∧
      (e.weight > 0 → e.rport ≠ 0 →
        slotGains n.B_.spike_AMPA n'.B_.spike_AMPA e.rel_delivery_steps
          (e.weight * e.multiplicity) ∧
        n'.B_.spike_NMDA = n.B_.spike_NMDA ∧ n'.B_.spike_GABA = n.B_.spike_GABA) ∧
      (e.weight < 0 →
        slotGains n.B_.spike_GABA n'.B_.spike_GABA e.rel_delivery_steps
          (-e.weight * e.multiplicity) ∧
        n'.B_.spike_AMPA = n.B_.spike_AMPA ∧ n'.B_.spike_NMDA = n.B_.spike_NMDA)) ∧
    (∃ n', handle_CurrentEvent c n = some n' ∧ handle_frame n n' ∧
      slotGains n.B_.currents_ n'.B_.currents_ c.rel_delivery_steps (c.weight * c.current) ∧
      n'.B_.spike_AMPA = n.B_.spike_AMPA ∧ n'.B_.spike_GABA = n.B_.spike_GABA ∧
      n'.B_.spike_NMDA = n.B_.spike_NMDA) := by
  constructor
  · unfold handle_SpikeEvent
    rw [if_pos he]
    by_cases hw : e.weight > 0
    · by_cases hp : e.rport = 0
      · rw [if_pos hw, if_pos hp]
        refine ⟨_, rfl, ⟨rfl, rfl, rfl, rfl, rfl, rfl, rfl, rfl, rfl, rfl⟩, rfl, ?_, ?_, ?_⟩
        · exact fun _ _ => ⟨fun _ => rfl, fun _ => rfl, rfl⟩
        · exact fun _ h => absurd hp h
        · exact fun h => absurd hw (not_lt.2 h.le)
      · rw [if_pos hw, if_neg hp]
        refine ⟨_, rfl, ⟨rfl, rfl, rfl, rfl, rfl, rfl, rfl, rfl, rfl, rfl⟩, rfl, ?_, ?_, ?_⟩
        · exact fun _ h => absurd h hp
        · exact fun _ _ => ⟨fun _ => rfl, rfl, rfl⟩
        · exact fun h => absurd hw (not_lt.2 h.le)
    · rw [if_neg hw]
      refine ⟨_, rfl, ⟨rfl, rfl, rfl, rfl, rfl, rfl, rfl, rfl, rfl, rfl⟩, rfl, ?_, ?_, ?_⟩
      · exact fun h => absurd h hw
      · exact fun h => absurd h hw
      · exact fun _ => ⟨fun _ => rfl, rfl, rfl⟩
  · unfold handle_CurrentEvent
    rw [if_pos hc]
    exact ⟨_, rfl, ⟨rfl, rfl, rfl, rfl, rfl, rfl, rfl, rfl, rfl, rfl⟩, fun _ => rfl, rfl, rfl,
      rfl⟩

theorem C8_handle_routes_events_witness :
    handle_SpikeEvent testSpike (testNode (-50) 0 (1 / 2))
        = some (testNodeSpiked (-50) 0 (1 / 2)) ∧
      (testNodeSpiked (-50) 0 (1 / 2)).B_.spike_AMPA 3 = 3 ∧
      (testNodeSpiked (-50) 0 (1 / 2)).B_.spike_NMDA 3 = 3 / 2 ∧
      (testNodeSpiked (-50) 0 (1 / 2)).B_.spike_AMPA 2 = 0 ∧
      ∃ n', handle_CurrentEvent testCurrent (testNode (-50) 0 (1 / 2)) = some n' ∧
        n'.B_.currents_ 3 = 100 := by
  have h := C8_handle_routes_events testSpike testCurrent (testNode (-50) 0 (1 / 2))
    (by decide) (by decide)
  obtain ⟨⟨n', h1, -, -, h2, -, -⟩, ⟨m', g1, -, g2, -⟩⟩ := h
  have hs : handle_SpikeEvent testSpike (testNode (-50) 0 (1 / 2))
      = some (testNodeSpiked (-50) 0 (1 / 2)) := by
    simp [handle_SpikeEvent, testSpike, testNodeSpiked, testNode]
  rw [hs] at h1
  simp only [Option.some.injEq] at h1
  subst h1
  obtain ⟨a1, a2, -⟩ := h2 (by norm_num [testSpike]) rfl
  refine ⟨hs, ?_, ?_, ?_, m', g1, ?_⟩
  · rw [a1]; norm_num [testSpike, testNode]
  · rw [a2]; norm_num [testSpike, testNode]
  · rw [a1]; norm_num [testSpike, testNode]
  · rw [g2]; norm_num [testCurrent, testNode]

/-- C9: when a spike event of weight `w > 0` and multiplicity 1 is handled for lag `k`
and the AMPA slot of `k` held nothing else, then after `update` processes lag `k`
`s_AMPA` is the value the integrator produced plus exactly `w`, the AMPA slot of `k` is
back to 0, and `s_GABA` is the integrated value plus the GABA slot as it was before the
event; against the same lag run without the event, `s_GABA` is the same and `s_AMPA`
is larger by exactly `w`. -/
theorem C9_single_AMPA_event {α σ : Type} [LinearOrderedField α] (K : Kernel α σ)
    (fuel : Nat) (origin : Int) (e : SpikeEvent α) (n n' n₁ : iaf_wang_2002 α σ)
    (hw : e.weight > 0) (hm : e.multiplicity = 1)
    (hslot : n.B_.spike_AMPA e.rel_delivery_steps = 0)
    (hh : handle_SpikeEvent e n = some n')
    (hint : integrate K fuel 0 n' = .ok n₁) :
    ∃ n₂, update_lag K fuel origin e.rel_delivery_steps n' = .ok n₂ ∧
      n₂.S_.y_ .s_AMPA = n₁.S_.y_ .s_AMPA + e.weight ∧
      n₂.B_.spike_AMPA e.rel_delivery_steps = 0 ∧
      n₂.S_.y_ .s_GABA = n₁.S_.y_ .s_GABA + n.B_.spike_GABA e.rel_delivery_steps ∧
      ∃ m₁ m₂, integrate K fuel 0 n = .ok m₁ ∧ m₁.S_.y_ = n₁.S_.y_ ∧
        update_lag K fuel origin e.rel_delivery_steps n = .ok m₂ ∧
        m₂.S_.y_ .s_GABA = n₂.S_.y_ .s_GABA ∧
        n₂.S_.y_ .s_AMPA = m₂.S_.y_ .s_AMPA + e.weight := by
  obtain ⟨hn', hA, hG⟩ := handle_SpikeEvent_excitatory e n n' hw hh
  obtain ⟨f1, f2, f3, f4, f5, f6, f7, f8, f9, f10, f11, f12⟩ :=
    integrate_frame_of_ok K fuel 0 n' n₁ hint
  -- the same integration without the event
  have hcomm := integrate_with_ring_buffers K n' fuel 0 n
  rw [← hn', hint] at hcomm
  obtain ⟨m₁, hm₁, hy⟩ : ∃ m₁, integrate K fuel 0 n = .ok m₁ ∧ m₁.S_.y_ = n₁.S_.y_ := by
    cases hi : integrate K fuel 0 n with
    | ok m =>
      rw [hi] at hcomm
      simp only [Outcome.map, Outcome.ok.injEq] at hcomm
      exact ⟨m, rfl, by rw [hcomm]; rfl⟩
    | throw e m => rw [hi] at hcomm; cases hcomm
    | diverge m => rw [hi] at hcomm; cases hcomm
  obtain ⟨g1, g2, g3, g4, g5, g6, g7, g8, g9, g10, g11, g12⟩ :=
    integrate_frame_of_ok K fuel 0 n m₁ hm₁
  have hslot' : n'.B_.spike_AMPA e.rel_delivery_steps = e.weight := by
    rw [hA]
    simp [RingBuffer.add_value, hslot, hm]
  have key : ∀ (x : iaf_wang_2002 α σ),
      (set_current_and_record origin e.rel_delivery_steps
        (threshold_step K origin e.rel_delivery_steps
          (add_incoming_spikes e.rel_delivery_steps x))).S_.y_ .s_AMPA
        = x.S_.y_ .s_AMPA + x.B_.spike_AMPA e.rel_delivery_steps ∧
      (set_current_and_record origin e.rel_delivery_steps
        (threshold_step K origin e.rel_delivery_steps
          (add_incoming_spikes e.rel_delivery_steps x))).S_.y_ .s_GABA
        = x.S_.y_ .s_GABA + x.B_.spike_GABA e.rel_delivery_steps ∧
      (set_current_and_record origin e.rel_delivery_steps
        (threshold_step K origin e.rel_delivery_steps
          (add_incoming_spikes e.rel_delivery_steps x))).B_.spike_AMPA e.rel_delivery_steps
        = 0 := by
    intro x
    obtain ⟨c1, c2, c3, c4, c5, c6, c7, c8, c9, c10⟩ := set_current_and_record_frame origin
      e.rel_delivery_steps (threshold_step K origin e.rel_delivery_steps
        (add_incoming_spikes e.rel_delivery_steps x))
    rw [c3, c6, threshold_step_gating K origin _ _ _ (by decide),
      threshold_step_gating K origin _ _ _ (by decide),
      (threshold_step_frame K origin e.rel_delivery_steps _).2.2.1,
      add_incoming_spikes_s_AMPA, add_incoming_spikes_s_GABA,
      (add_incoming_spikes_buffers e.rel_delivery_steps x).1]
    exact ⟨rfl, rfl, by simp [RingBuffer.get_value]⟩
  obtain ⟨k1, k2, k3⟩ := key n₁
  obtain ⟨l1, l2, -⟩ := key m₁
  refine ⟨_, update_lag_of_integrate K fuel origin _ n' n₁ hint, ?_, k3, ?_, m₁, _, hm₁, hy,
    update_lag_of_integrate K fuel origin _ n m₁ hm₁, ?_, ?_⟩
  · rw [k1, f5, hslot']
  · rw [k2, f6, hG]
  · rw [k2, l2, f6, hG, g6, hy]
  · rw [k1, l1, f5, hslot', g5, hslot, hy, add_zero]

theorem C9_single_AMPA_event_witness :
    ∃ n₂, update_lag (eulerKernel 0) 1 0 3 (testNodeSpiked (-50) 0 (1 / 2)) = .ok n₂ ∧
      n₂.S_.y_ .s_AMPA = 3 ∧ n₂.B_.spike_AMPA 3 = 0 ∧ n₂.S_.y_ .s_GABA = 0 := by
  obtain ⟨n₂, h, hA, hslot, hG, -⟩ := C9_single_AMPA_event (eulerKernel 0) 1 0 testSpike
    (testNode (-50) 0 (1 / 2)) (testNodeSpiked (-50) 0 (1 / 2))
    (evolve_store (testNodeSpiked (-50) 0 (1 / 2))
      (evolve_call (eulerKernel 0) 0 (testNodeSpiked (-50) 0 (1 / 2))))
    (by norm_num [testSpike]) rfl rfl
    (by simp [handle_SpikeEvent, testSpike, testNodeSpiked, testNode])
    (by simp [integrate, evolve_call, evolve_store, eulerKernel, testNodeSpiked, testNode,
      GSL_SUCCESS])
  refine ⟨n₂, h, ?_, hslot, ?_⟩
  · rw [hA]
    norm_num [evolve_store, evolve_call, eulerKernel, testNodeSpiked, testNode,
      iaf_wang_2002_dynamics, Parameters_.ctor, Function.update, testSpike]
    simp
  · rw [hG]
    norm_num [evolve_store, evolve_call, eulerKernel, testNodeSpiked, testNode,
      iaf_wang_2002_dynamics, Parameters_.ctor, Function.update, testSpike]
    simp

/-- C15, at the failing input: on storage that reads 1/2 everywhere, the state
constructed from the default parameters has voltage `E_L = -70`, the three gating
variables 0 and the refractory counter 0, but its NMDA presynaptic trace is the 1/2 of
the storage, not 0: the constructor never writes `s_NMDA_pre`. -/
theorem C15_constructor_leaves_trace_unset :
    (State_.ctor (rawState (1 / 2) 7) (Parameters_.ctor 2)).y_ .V_m
        = (Parameters_.ctor (2 : ℚ)).E_L ∧
      (State_.ctor (rawState (1 / 2) 7) (Parameters_.ctor 2)).y_ .s_AMPA = 0 ∧
      (State_.ctor (rawState (1 / 2) 7) (Parameters_.ctor 2)).y_ .s_GABA = 0 ∧
      (State_.ctor (rawState (1 / 2) 7) (Parameters_.ctor 2)).y_ .s_NMDA = 0 ∧
      (State_.ctor (rawState (1 / 2) 7) (Parameters_.ctor 2)).r_ = 0 ∧
      (State_.ctor (rawState (1 / 2) 7) (Parameters_.ctor 2)).s_NMDA_pre = 1 / 2 ∧
      (State_.ctor (rawState (1 / 2) 7) (Parameters_.ctor 2)).s_NMDA_pre ≠ 0 := by
  refine ⟨?_, ?_, ?_, ?_, rfl, rfl, ?_⟩
  · simp [State_.ctor, Function.update]
  · norm_num [State_.ctor, Function.update]
  · norm_num [State_.ctor, Function.update]
  · norm_num [State_.ctor, Function.update]
  · show (1 / 2 : ℚ) ≠ 0
    norm_num

/-- C17, at the failing input: the default constructor leaves `tau_rise_NMDA` with the
value of the storage; when the storage reads 0, the other nine invariants hold but
`Parameters_::set` with the empty dictionary throws `BadProperty`. For every value of the
storage, the default parameters are valid, and `set` with the empty dictionary succeeds,
exactly when that value is positive. -/
theorem C17_default_tau_rise_NMDA_unset :
    Parameters_.set emptyDict (Parameters_.ctor (0 : ℚ)) =
        .throw (.BadProperty "All time constants must be strictly positive.")
          (Parameters_.ctor 0) ∧
      (∀ τ : ℚ, (Parameters_.ctor τ).valid ↔ 0 < τ) ∧
      (∀ τ : ℚ, Parameters_.set emptyDict (Parameters_.ctor τ) = .ok (Parameters_.ctor τ)
        ↔ 0 < τ) := by
  have hm : ∀ τ : ℚ, merged emptyDict (Parameters_.ctor τ) = Parameters_.ctor τ := by
    intro τ
    simp [merged, emptyDict]
  have hv : ∀ τ : ℚ, (Parameters_.ctor τ).valid ↔ 0 < τ := by
    intro τ
    norm_num [Parameters_.valid, Parameters_.ctor]
  refine ⟨?_, hv, ?_⟩
  · simp only [Parameters_.set, assign_eq_merged, hm]
    norm_num [Parameters_.ctor]
  · intro τ
    have := set_eq_ok_iff emptyDict (Parameters_.ctor τ)
    rw [hm] at this
    exact this.trans (hv τ)

/-- C19, at the failing input: the copy of a state with trace 1/2 onto storage that
reads 0 has the four components of `y_` and the refractory counter of the original, but
trace 0: the copy constructor never writes `s_NMDA_pre`, and the copy differs from
the original. -/
theorem C19_copy_drops_trace :
    (∀ i, (State_.copy (rawState 0 0) (rawState (1 / 2) 3)).y_ i = (rawState (1 / 2) 3).y_ i) ∧
      (State_.copy (rawState 0 0) (rawState (1 / 2) 3)).r_ = (rawState (1 / 2) 3).r_ ∧
      (State_.copy (rawState 0 0) (rawState (1 / 2) 3)).s_NMDA_pre = 0 ∧
      (rawState (1 / 2) 3).s_NMDA_pre = 1 / 2 ∧
      State_.copy (rawState 0 0) (rawState (1 / 2) 3) ≠ rawState (1 / 2) 3 := by
  refine ⟨?_, rfl, rfl, rfl, ?_⟩
  · intro i
    cases i <;> simp [State_.copy, Function.update, rawState]
  · intro h
    have h' := congrArg State_.s_NMDA_pre h
    have h0 : (0 : ℚ) = 1 / 2 := h'
    norm_num at h0

/-- C16: a lag of `update` whose integration loop finished sends at most one spike, and
sends one exactly when, after integration and event injection, the refractory counter is 0
and `V >= V_th`; with counter 0 and `V < V_th` the lag leaves `V`, the counter and the
NMDA presynaptic trace as they were after injection and sends nothing; in a refractory
lag nothing is sent and the trace is unchanged. -/
theorem C16_spike_only_on_threshold {α σ : Type} [LinearOrderedField α] (K : Kernel α σ)
    (fuel : Nat) (origin lag : Int) (n n₁ : iaf_wang_2002 α σ)
    (hint : integrate K fuel 0 n = .ok n₁) :
    ∃ n₂ new, update_lag K fuel origin lag n = .ok n₂ ∧ n₂.effects = n.effects ++ new ∧
      (sends new).length ≤ 1 ∧
      (sends new ≠ [] ↔
        (add_incoming_spikes lag n₁).S_.r_ = 0 ∧
          (add_incoming_spikes lag n₁).S_.y_ .V_m ≥ (add_incoming_spikes lag n₁).P_.V_th) ∧
      ((add_incoming_spikes lag n₁).S_.r_ = 0 →
        (add_incoming_spikes lag n₁).S_.y_ .V_m < (add_incoming_spikes lag n₁).P_.V_th →
        n₂.S_.y_ .V_m = (add_incoming_spikes lag n₁).S_.y_ .V_m ∧
        n₂.S_.r_ = (add_incoming_spikes lag n₁).S_.r_ ∧
        n₂.S_.s_NMDA_pre = (add_incoming_spikes lag n₁).S_.s_NMDA_pre ∧ sends new = []) ∧
      ((add_incoming_spikes lag n₁).S_.r_ ≠ 0 →
        sends new = [] ∧
        n₂.S_.s_NMDA_pre = (add_incoming_spikes lag n₁).S_.s_NMDA_pre) := by
  obtain ⟨f1, f2, f3, f4, -⟩ := integrate_frame_of_ok K fuel 0 n n₁ hint
  obtain ⟨a1, a2, a3, a4, -⟩ := add_incoming_spikes_frame lag n₁
  have aV := add_incoming_spikes_V_m lag n₁
  obtain ⟨n₂, calls, hm, -, hev, -, -, -, -, hR, hS, hU⟩ :=
    update_lag_branches K fuel origin lag n n₁ hint
  have hsc := sends_of_isEvolve calls hev
  rw [a1, a3, a4, aV, f1, f3, f4]
  by_cases hr : n.S_.r_ = 0
  · rcases le_or_lt n.P_.V_th (n₁.S_.y_ .V_m) with hV | hV
    · obtain ⟨he, -⟩ := hS hr hV
      refine ⟨n₂, calls ++ [_, _], hm, by rw [he, List.append_assoc], ?_, ?_, ?_, ?_⟩
      · rw [sends_append, hsc]
        simp [sends, Effect.asSend]
      · rw [sends_append, hsc]
        simp [sends, Effect.asSend, hr, hV]
      · intro _ hlt
        exact absurd hV (not_le.2 hlt)
      · intro hne
        exact absurd hr hne
    · obtain ⟨he, h1, h2, -, h4⟩ := hU hr hV
      have hs : sends (calls ++ [Effect.record_data (origin + lag)]) = [] := by
        rw [sends_append, hsc]
        simp [sends, Effect.asSend]
      refine ⟨n₂, calls ++ [_], hm, by rw [he, List.append_assoc], ?_, ?_, ?_, ?_⟩
      · rw [hs]; simp
      · rw [hs]
        simp [not_le.2 hV]
      · intro _ _
        exact ⟨h4, by rw [h1, hr], h2, hs⟩
      · intro hne
        exact absurd hr hne
  · obtain ⟨he, -, h2, -⟩ := hR hr
    have hs : sends (calls ++ [Effect.record_data (origin + lag)]) = [] := by
      rw [sends_append, hsc]
      simp [sends, Effect.asSend]
    refine ⟨n₂, calls ++ [_], hm, by rw [he, List.append_assoc], ?_, ?_, ?_, ?_⟩
    · rw [hs]; simp
    · rw [hs]
      simp [hr]
    · intro h0
      exact absurd h0 hr
    · intro _
      exact ⟨hs, h2⟩

theorem C16_spike_only_on_threshold_witness :
    ∃ n₂ new, update_lag (eulerKernel 0) 1 0 3 (testNode (-65) 0 (1 / 2)) = .ok n₂ ∧
      n₂.effects = (testNode (-65) 0 (1 / 2)).effects ++ new ∧
      (sends new).length ≤ 1 := by
  obtain ⟨n₂, new, h, he, hl, -⟩ := C16_spike_only_on_threshold (eulerKernel 0) 1 0 3
    (testNode (-65) 0 (1 / 2)) _ (integrate_euler_ok _ _ _)
  exact ⟨n₂, new, h, he, hl⟩

/-- C20: for `from <= mid <= to`, `update( origin, from, to )` is `update( origin, from,
mid )` followed by `update( origin, mid, to )`: the same outcome with the same node
(state, ring buffers, injected current, trial step size, log of evolve, send and recorder
calls); `update` with `from >= to` returns the node as it is; and a run that returns made
its recorder calls for the steps `origin + from`, ..., `origin + to - 1` in this order. -/
theorem C20_update_compositional {α σ : Type} [LinearOrderedField α] (K : Kernel α σ)
    (fuel : Nat) (origin from_ mid to_ : Int) (n : iaf_wang_2002 α σ)
    (h₁ : from_ ≤ mid) (h₂ : mid ≤ to_) :
    update K fuel origin from_ to_ n =
        (update K fuel origin from_ mid n).andThen (update K fuel origin mid to_) ∧
      (∀ a b : Int, b ≤ a → update K fuel origin a b n = .ok n) ∧
      (∀ n', update K fuel origin from_ to_ n = .ok n' →
        ∃ new, n'.effects = n.effects ++ new ∧
          recordSteps new =
            List.map (fun k : Nat => origin + from_ + k) (List.range (to_ - from_).toNat)) := by
  refine ⟨?_, ?_, ?_⟩
  · unfold update
    have hc : (to_ - from_).toNat = (mid - from_).toNat + (to_ - mid).toNat := by omega
    have hm : from_ + ((mid - from_).toNat : Int) = mid := by omega
    rw [hc, update_loop_add, hm]
  · intro a b hab
    unfold update
    have : (b - a).toNat = 0 := by omega
    rw [this]
    rfl
  · intro n' h
    exact update_loop_records K fuel origin _ from_ n n' h

theorem C20_update_compositional_witness :
    update (eulerKernel 0) 1 0 2 7 (testNode (-65) 0 (1 / 2)) =
      (update (eulerKernel 0) 1 0 2 4 (testNode (-65) 0 (1 / 2))).andThen
        (update (eulerKernel 0) 1 0 4 7) :=
  (C20_update_compositional (eulerKernel 0) 1 0 2 4 7 (testNode (-65) 0 (1 / 2))
    (by decide) (by decide)).1

/-- C11, counterexample: the default parameters with `E_L = -50` are valid, and the
neuron at rest there (`V = E_L`, gating variables 0, empty buffers, no current, not
refractory) with an evolve primitive that leaves fixed points alone spikes in the first
lag, which ends with `V = V_reset = -60`, not `E_L`. -/
theorem C11_counterexample :
    (restNode (-50)).P_.valid ∧ atRest (restNode (-50)) ∧
      leavesFixedPoints (eulerKernel 0) ∧
      ∃ n₂, update (eulerKernel 0) 1 0 0 1 (restNode (-50)) = .ok n₂ ∧
        n₂.S_.y_ .V_m = -60 ∧ n₂.P_.E_L = -50 := by
  have hrest : atRest (restNode (-50)) := by
    simp [atRest, restNode, testNode]
  have hint := integrate_one_ok (eulerKernel 0) (restNode (-50))
    (by norm_num [restNode, testNode]) rfl rfl
  have hS := integrate_atRest (eulerKernel 0) (eulerKernel_leavesFixedPoints 0) 1 0
    (restNode (-50)) hrest
  rw [hint] at hS
  obtain ⟨n₂, calls, hm, -, -, hP, -, -, -, -, hSp, -⟩ :=
    update_lag_branches (eulerKernel 0) 1 0 0 (restNode (-50)) _ hint
  obtain ⟨-, -, -, -, hV⟩ := hSp rfl (by
    rw [show (evolve_store (restNode (-50)) (evolve_call (eulerKernel 0) 0
      (restNode (-50)))).S_ = (restNode (-50)).S_ from hS]
    norm_num [restNode, testNode, Parameters_.ctor])
  refine ⟨by norm_num [Parameters_.valid, restNode, Parameters_.ctor], hrest,
    eulerKernel_leavesFixedPoints 0, n₂, ?_, ?_, ?_⟩
  · show update_loop (eulerKernel 0) 1 0 1 0 (restNode (-50)) = .ok n₂
    rw [update_loop_one]
    exact hm
  · rw [hV]
    norm_num [restNode, Parameters_.ctor]
  · rw [hP]
    rfl

/-- C11, amended: with an evolve primitive that leaves a zero-derivative state unchanged
and integration loops that finish, for every parameter set with `E_L < V_th`, starting
not refractory from `V = E_L` with the three gating variables 0, all accumulators empty
and no injected current: the dynamics function returns a zero derivative at the state,
and after every lag of `update` the voltage is `E_L` and the neuron is at rest again with
the same parameters, so the same holds for every later `update`. -/
theorem C11_rest_is_fixed_point {α σ : Type} [LinearOrderedField α] (K : Kernel α σ)
    (fuel : Nat) (origin from_ to_ : Int) (n : iaf_wang_2002 α σ)
    (hfix : leavesFixedPoints K)
    (hfin : ∀ m : iaf_wang_2002 α σ, atRest m → ∃ m₁, integrate K fuel 0 m = .ok m₁)
    (hn : atRest n) (hE : n.P_.E_L < n.P_.V_th) :
    (∀ t f i, (iaf_wang_2002_dynamics K n t n.S_.y_ f).2 i = 0) ∧
      ∀ lag, from_ ≤ lag → lag ≤ to_ →
        ∃ n', update K fuel origin from_ lag n = .ok n' ∧ n'.S_.y_ .V_m = n.P_.E_L ∧
          atRest n' ∧ n'.P_ = n.P_ := by
  refine ⟨fun t f i => dynamics_zero_atRest K n hn t f i, ?_⟩
  intro lag _ _
  obtain ⟨n', new, h, hrest, hP, -, -⟩ :=
    update_loop_atRest K hfix fuel origin hfin (lag - from_).toNat from_ n hn hE
  exact ⟨n', h, by rw [hrest.1, hP], hrest, hP⟩

theorem C11_rest_is_fixed_point_witness :
    atRest (restNode (-70)) ∧ (restNode (-70)).P_.E_L < (restNode (-70)).P_.V_th ∧
      ∃ n', update (eulerKernel 0) 1 0 0 50 (restNode (-70)) = .ok n' ∧
        n'.S_.y_ .V_m = -70 := by
  have hrest : atRest (restNode (-70)) := by
    simp [atRest, restNode, testNode]
  have hE : (restNode (-70)).P_.E_L < (restNode (-70)).P_.V_th := by
    norm_num [restNode, Parameters_.ctor]
  obtain ⟨n', h, hV, -⟩ := (C11_rest_is_fixed_point (eulerKernel 0) 1 0 0 50 (restNode (-70))
    (eulerKernel_leavesFixedPoints 0) (fun m _ => integrate_euler_total m) hrest hE).2 50
    (by decide) (by decide)
  exact ⟨hrest, hE, n', h, hV⟩

/-- C12: with an evolve primitive that leaves a zero-derivative state unchanged and
integration loops that finish, a neuron with the default parameters and the state
constructed from them, after `init_buffers_` and with no event handled, runs `update`
over the 100 lags 0..99 to the end, with `V = -70.0`, refractory counter 0 and no `send`
in the log of the run; this for every value the storage gives `tau_rise_NMDA` and the
NMDA trace. -/
theorem C12_default_run_stays_at_rest {α σ : Type} [LinearOrderedField α] (K : Kernel α σ)
    (fuel : Nat) (origin : Int) (fresh : σ) (t_cleared τ : α) (raw : State_ α)
    (n₀ : iaf_wang_2002 α σ)
    (hfix : leavesFixedPoints K)
    (hfin : ∀ m : iaf_wang_2002 α σ, atRest m → ∃ m₁, integrate K fuel 0 m = .ok m₁)
    (hP : n₀.P_ = Parameters_.ctor τ) (hS : n₀.S_ = State_.ctor raw n₀.P_) :
    ∃ n' new, update K fuel origin 0 100 (init_buffers_ K fresh t_cleared n₀) = .ok n' ∧
      n'.S_.y_ .V_m = -70.0 ∧ n'.S_.r_ = 0 ∧
      n'.effects = n₀.effects ++ new ∧ sends new = [] := by
  have hrest : atRest (init_buffers_ K fresh t_cleared n₀) := by
    unfold atRest
    simp only [init_buffers_, hS, hP]
    refine ⟨?_, ?_, ?_, ?_, rfl, fun _ => rfl, fun _ => rfl, fun _ => rfl, fun _ => rfl, ?_⟩
    · simp [State_.ctor, Function.update]
    · norm_num [State_.ctor, Function.update]
    · norm_num [State_.ctor, Function.update]
    · norm_num [State_.ctor, Function.update]
    · norm_num
  have hE : (init_buffers_ K fresh t_cleared n₀).P_.E_L
      < (init_buffers_ K fresh t_cleared n₀).P_.V_th := by
    simp only [init_buffers_, hP]
    norm_num [Parameters_.ctor]
  obtain ⟨n', new, h, hr, hP', he, hs⟩ :=
    update_loop_atRest K hfix fuel origin hfin 100 0 _ hrest hE
  refine ⟨n', new, h, ?_, hr.2.2.2.2.1, he, hs⟩
  rw [hr.1, hP']
  simp only [init_buffers_, hP]
  norm_num [Parameters_.ctor]

theorem C12_default_run_stays_at_rest_witness :
    ∃ n' new, update (eulerKernel 0) 1 0 0 100 (init_buffers_ (eulerKernel 0) () (-1)
        { testNode 5 3 (1 / 2) with
          S_ := State_.ctor (rawState (1 / 2) 7) (Parameters_.ctor 2) }) = .ok n' ∧
      n'.S_.y_ .V_m = -70 ∧ n'.S_.r_ = 0 ∧ n'.effects = [] ++ new ∧ sends new = [] := by
  obtain ⟨n', new, h, hV, hr, he, hs⟩ := C12_default_run_stays_at_rest (eulerKernel 0) 1 0 ()
    (-1) 2 (rawState (1 / 2) 7)
    { testNode 5 3 (1 / 2) with S_ := State_.ctor (rawState (1 / 2) 7) (Parameters_.ctor 2) }
    (eulerKernel_leavesFixedPoints 0) (fun m _ => integrate_euler_total m) rfl rfl
  refine ⟨n', new, h, ?_, hr, he, hs⟩
  rw [hV]
  norm_num

/-- C13, counterexample: with `RefractoryCounts_ = 20`, the Euler integrator and a
constant current of 30000 pA, the integrated voltage is at or above `V_th` at every
non-refractory lag of the run, and a run of 43 lags from a non-refractory neuron sends
its spikes at lags 0, 21 and 42: consecutive spikes are 21 lags apart, not 20. -/
theorem C13_counterexample :
    (currentNode 0).V_.RefractoryCounts_ = 20 ∧
      (∀ (j : Nat) (m : iaf_wang_2002 ℚ Unit), j < 43 →
        update (eulerKernel 0) 1 0 0 (0 + j) (currentNode 0) = .ok m →
        ∃ m₁, integrate (eulerKernel 0) 1 0 m = .ok m₁ ∧
          (m.S_.r_ = 0 → m.P_.V_th ≤ m₁.S_.y_ .V_m)) ∧
      ∃ n' new, update (eulerKernel 0) 1 0 0 43 (currentNode 0) = .ok n' ∧
        n'.effects = (currentNode 0).effects ++ new ∧
        spikeLags new = [0, 21, 42] := by
  have hdrive : ∀ (j : Nat) (m : iaf_wang_2002 ℚ Unit), j < 43 →
      update_loop (eulerKernel 0) 1 0 j 0 (currentNode 0) = .ok m →
      ∃ m₁, integrate (eulerKernel 0) 1 0 m = .ok m₁ ∧
        (m.S_.r_ = 0 → m.P_.V_th ≤ m₁.S_.y_ .V_m) :=
    fun j m _ hrun => currentInv_drive 0 0 (currentNode 0) (currentNode_inv 0 0) j m hrun
  refine ⟨rfl, ?_, ?_⟩
  · intro j m hj hrun
    rw [update_eq_loop] at hrun
    exact hdrive j m hj hrun
  · obtain ⟨n', new, h, he, hs⟩ := update_loop_driven (eulerKernel 0) 1 0 20 43 0
      (currentNode 0) 0 rfl rfl (by decide) hdrive
    refine ⟨n', new, h, he, ?_⟩
    rw [hs]
    decide

/-- C13, amended: in a run of `count` lags in which, at every lag, the integration loop
finishes and, where the neuron is not refractory, the integrated voltage is at or above
`V_th`, entered with refractory counter `r <= R = RefractoryCounts_`, `update` returns
and sends its spikes exactly at the lags `from + r`, `from + r + (R + 1)`,
`from + r + 2 (R + 1)`, ...: consecutive spike lags are `R + 1` lags apart (21 lags for
`R = 20`), one spike lag followed by `R` refractory lags. The condition is on the nodes
of the run only: `m` is the node `update` reaches after the first `j` lags. -/
theorem C13_spike_every_refractory_count_plus_one {α σ : Type} [LinearOrderedField α]
    (K : Kernel α σ) (fuel : Nat) (origin from_ : Int) (n : iaf_wang_2002 α σ)
    (R r count : Nat) (hR : n.V_.RefractoryCounts_ = R) (hr : n.S_.r_ = r) (hrR : r ≤ R)
    (hdrive : ∀ (j : Nat) (m : iaf_wang_2002 α σ), j < count →
      update K fuel origin from_ (from_ + j) n = .ok m →
      ∃ m₁, integrate K fuel 0 m = .ok m₁ ∧ (m.S_.r_ = 0 → m.P_.V_th ≤ m₁.S_.y_ .V_m)) :
    ∃ n' new, update K fuel origin from_ (from_ + count) n = .ok n' ∧
      n'.effects = n.effects ++ new ∧
      spikeLags new = List.map (fun k : Nat => from_ + r + k * ((R : Int) + 1))
        (List.range ((count + R - r) / (R + 1))) := by
  rw [update_eq_loop]
  refine update_loop_driven K fuel origin R count from_ n r hR hr hrR ?_
  intro j m hj hrun
  refine hdrive j m hj ?_
  rw [update_eq_loop]
  exact hrun

theorem C13_spike_every_refractory_count_plus_one_witness :
    ∃ n' new, update (eulerKernel 0) 1 0 5 (5 + (64 : Nat)) (currentNode 0) = .ok n' ∧
      n'.effects = (currentNode 0).effects ++ new ∧
      spikeLags new = [5, 26, 47, 68] := by
  obtain ⟨n', new, h, he, hs⟩ := C13_spike_every_refractory_count_plus_one (eulerKernel 0) 1 0
    5 (currentNode 0) 20 0 64 rfl rfl (by decide)
    (fun j m _ hrun => currentInv_drive 0 5 (currentNode 0) (currentNode_inv 0 5) j m
      (by rw [update_eq_loop] at hrun; exact hrun))
  refine ⟨n', new, h, he, ?_⟩
  rw [hs]
  decide

/-- C18: with `0 < alpha <= 1`, `tau_decay_NMDA > 0`, an `exp` that maps non-positive
numbers into `[0, 1]` and step times that do not decrease: a spiking lag entered with the
trace in `[0, 1]` and a spike time not earlier than the previous one sends the payload
`delta = alpha*(1 - decayed trace)` in `[0, alpha]` and leaves the trace in `[alpha, 1]`;
and a run of `update` started with the trace in `[0, 1]` (the trace being 0, or the last
spike not later than the first step) has the trace in `[0, 1]` after every lag, and ends
in a state from which the next run starts the same way. -/
theorem C18_trace_stays_in_unit_interval {α σ : Type} [LinearOrderedField α]
    (K : Kernel α σ) (fuel : Nat) (origin from_ to_ : Int) (n : iaf_wang_2002 α σ)
    (hexp : ∀ x, x ≤ 0 → 0 ≤ K.exp x ∧ K.exp x ≤ 1)
    (hmono : ∀ a b : Int, a ≤ b → K.get_ms a ≤ K.get_ms b)
    (ha0 : 0 < n.P_.alpha) (ha1 : n.P_.alpha ≤ 1) (htau : 0 < n.P_.tau_decay_NMDA) :
    (∀ lag n₁, integrate K fuel 0 n = .ok n₁ → n.S_.r_ = 0 → n.P_.V_th ≤ n₁.S_.y_ .V_m →
      0 ≤ n.S_.s_NMDA_pre → n.S_.s_NMDA_pre ≤ 1 →
      get_spiketime_ms n ≤ K.get_ms (origin + lag + 1) →
      ∃ n₂ calls, update_lag K fuel origin lag n = .ok n₂ ∧
        n₂.effects = n.effects ++ calls ++
          [.send (n.P_.alpha * (1 - decayed_trace K origin lag n)) (origin + lag + 1) lag,
            .record_data (origin + lag)] ∧
        (∀ c ∈ calls, c.isEvolve = true) ∧
        0 ≤ n.P_.alpha * (1 - decayed_trace K origin lag n) ∧
        n.P_.alpha * (1 - decayed_trace K origin lag n) ≤ n.P_.alpha ∧
        n.P_.alpha ≤ n₂.S_.s_NMDA_pre ∧ n₂.S_.s_NMDA_pre ≤ 1) ∧
    (traceInv K (origin + from_) n → ∀ lag, from_ ≤ lag → lag ≤ to_ →
      traceInv K (origin + lag) (update K fuel origin from_ lag n).state) ∧
    (n.S_.s_NMDA_pre = 0 → ∀ lag, from_ ≤ lag → lag ≤ to_ →
      0 ≤ (update K fuel origin from_ lag n).state.S_.s_NMDA_pre ∧
        (update K fuel origin from_ lag n).state.S_.s_NMDA_pre ≤ 1) := by
  have hrun : traceInv K (origin + from_) n → ∀ lag, from_ ≤ lag → lag ≤ to_ →
      traceInv K (origin + lag) (update K fuel origin from_ lag n).state := by
    intro hinv lag hl _
    have h := (update_loop_traceInv K fuel origin hexp hmono (lag - from_).toNat from_ n
      ha0 ha1 htau hinv).1
    have hc : origin + from_ + ((lag - from_).toNat : Int) = origin + lag := by omega
    rw [hc] at h
    exact h
  refine ⟨?_, hrun, ?_⟩
  · intro lag n₁ hint hr hV h0 h1 ht
    obtain ⟨n₂, calls, hm, -, hev, -, -, -, -, -, hSp, -⟩ :=
      update_lag_branches K fuel origin lag n n₁ hint
    obtain ⟨he, -, htr, -⟩ := hSp hr hV
    obtain ⟨d0, d1⟩ := decayed_trace_bounds K origin lag n hexp htau h0 h1 (Or.inr ht)
    obtain ⟨b1, b2, b3, b4⟩ := trace_update_bounds n.P_.alpha _ ha0 ha1 d0 d1
    exact ⟨n₂, calls, hm, he, hev, b1, b2, by rw [htr]; exact b3, by rw [htr]; exact b4⟩
  · intro hz lag hl hu
    have hinv : traceInv K (origin + from_) n :=
      ⟨by rw [hz], by rw [hz]; exact zero_le_one, Or.inl hz⟩
    obtain ⟨r0, r1, -⟩ := hrun hinv lag hl hu
    exact ⟨r0, r1⟩

theorem C18_trace_stays_in_unit_interval_witness :
    0 ≤ (update decayKernel 1 0 0 64 (freshNode 0)).state.S_.s_NMDA_pre ∧
      (update decayKernel 1 0 0 64 (freshNode 0)).state.S_.s_NMDA_pre ≤ 1 := by
  have h := C18_trace_stays_in_unit_interval decayKernel 1 0 0 64 (freshNode 0)
    (by
      intro x hx
      have h1 : (0 : ℚ) < 1 - x := by linarith
      simp only [decayKernel, if_pos hx]
      exact ⟨by positivity, by rw [div_le_one h1]; linarith⟩)
    (by
      intro a b hab
      show (a : ℚ) / 10 ≤ (b : ℚ) / 10
      have : (a : ℚ) ≤ (b : ℚ) := by exact_mod_cast hab
      linarith)
    (by norm_num [freshNode, testNode, Parameters_.ctor])
    (by norm_num [freshNode, testNode, Parameters_.ctor])
    (by norm_num [freshNode, testNode, Parameters_.ctor])
  exact h.2.2 rfl 64 (by decide) (by decide)

end nest
